import Mathlib

/-!
Shallow embedding of the server-side game engine of the headsup-game
repository (src/server/RoomManager.ts, with the data model from the shared
type declarations), together with theorems settling the frozen claims about
its specification.

JavaScript `Map`s are modelled as association lists in insertion order,
`undefined`/`null` as `Option`, timestamps as `Nat`, and `Math.random`-driven
choices as an explicit oracle parameter.  Floating-point arithmetic in the
similarity threshold test is modelled over `ℚ` (the one comparison the code
performs, `1 - d/maxLen >= 0.8`, is exact at every input the program can
produce, see the comment at `fuzzyMatch`).
-/

-- ============================================================
-- Data model (shared/types.ts)
-- ============================================================

structure PlayerIdentity where
  displayName : String
  allowedAliases : List String
  imageUrl : Option String := none
  deriving Repr, DecidableEq

/-- Player record from shared/types.ts.  `forfeitOrder` is declared there
("0 = not forfeited, >0 = order they forfeited (for ranking)"); the server
code in src/server/RoomManager.ts never writes or reads it. -/
structure Player where
  id : String
  name : String
  avatarUrl : Option String := none
  targetPlayerId : String := ""
  assignedIdentity : Option PlayerIdentity := none
  hasSubmittedAssignment : Bool := false
  hasGuessedCorrectly : Bool := false
  turnsToGuess : Nat := 0
  isConnected : Bool := true
  guessLockUntil : Nat := 0
  forfeitOrder : Nat := 0
  deriving Repr, DecidableEq

inductive VoteType where
  | YES | NO | MAYBE
  deriving Repr, DecidableEq

structure Vote where
  playerId : String
  vote : VoteType
  deriving Repr, DecidableEq

structure Question where
  id : String
  askerId : String
  text : String
  votes : List Vote
  tallyYes : Nat
  tallyNo : Nat
  tallyMaybe : Nat
  timestamp : Nat
  deriving Repr, DecidableEq

inductive GamePhase where
  | LOBBY | ASSIGNMENT | PLAYING | FINISHED
  deriving Repr, DecidableEq

structure TurnState where
  activeGuesserId : String
  turnNumber : Nat
  turnStartTime : Nat
  turnDuration : Nat
  currentQuestion : Option Question := none
  deriving Repr, DecidableEq

structure GameSettings where
  turnDuration : Nat
  guessLockDuration : Nat
  minPlayers : Nat
  maxPlayers : Nat
  deriving Repr, DecidableEq

def DEFAULT_GAME_SETTINGS : GameSettings :=
  { turnDuration := 45000, guessLockDuration := 10000, minPlayers := 3, maxPlayers := 12 }

/-- Room state.  `players` models the JS `Map` keyed by player id, as an
association list in insertion order. -/
structure GameState where
  roomCode : String
  hostId : String
  phase : GamePhase
  players : List (String × Player)
  playerOrder : List String
  turnState : Option TurnState := none
  questionHistory : List Question := []
  createdAt : Nat := 0
  settings : GameSettings := DEFAULT_GAME_SETTINGS
  deriving Repr, DecidableEq

/-- A room together with its entry in the manager's `turnTimers` map:
`timerArmed` is true while a pending timeout is registered for the room. -/
structure ServerRoom where
  room : GameState
  timerArmed : Bool
  deriving Repr, DecidableEq

-- ============================================================
-- Map helpers (JS Map.get / entry mutation on an association list)
-- ============================================================

/-- `room.players.get(pid)` -/
def lookupPlayer (ps : List (String × Player)) (pid : String) : Option Player :=
  (ps.find? (fun e => e.1 = pid)).map (fun e => e.2)

/-- In-place mutation of the entry for `pid` (a JS object field assignment on
the value stored in the map). -/
def updatePlayer (ps : List (String × Player)) (pid : String) (f : Player → Player) :
    List (String × Player) :=
  ps.map (fun e => if e.1 = pid then (e.1, f e.2) else e)

-- ============================================================
-- Similarity matcher (levenshteinDistance / fuzzyMatch)
-- ============================================================

/-- ASCII lower-casing, as `String.prototype.toLowerCase` acts on the ASCII
range (every string the scenarios exercise). -/
def jsToLower (c : Char) : Char := c.toLower

def isJsSpace (c : Char) : Bool :=
  (c == ' ') || (c == '\t') || (c == '\n') || (c == '\r')

/-- `String.prototype.trim`: strip whitespace from both ends. -/
def trimChars (l : List Char) : List Char :=
  ((l.dropWhile isJsSpace).reverse.dropWhile isJsSpace).reverse

/-- `s.toLowerCase().trim()` -/
def jsNormalize (s : String) : List Char :=
  trimChars (s.data.map jsToLower)

/-- Inner `for j` loop of `levenshteinDistance`: given the previous DP row
(`prev`, the row for `i-1`, starting at column `j-1`) and the value just
computed to the left (`dp[i][j-1]`), produce the entries `dp[i][1..n]`.
`p0 = dp[i-1][j-1]`, `pj = dp[i-1][j]`, `left = dp[i][j-1]`. -/
def levRowAux (c : Char) : List Char → List Nat → Nat → List Nat
  | [], _, _ => []
  | y :: ys, prev, left =>
    match prev with
    | [] => []
    | p0 :: rest =>
      let pj := rest.headD 0
      let v := if c = y then p0 else 1 + Nat.min pj (Nat.min left p0)
      v :: levRowAux c ys rest v

/-- Outer `for i` loop: fold each character of `str1` over the DP row. -/
def levLoop (t : List Char) : List Char → List Nat → Nat → List Nat
  | [], row, _ => row
  | c :: cs, row, i => levLoop t cs (i :: levRowAux c t row i) (i + 1)

/-- `levenshteinDistance(str1, str2)`: the classic dynamic-programming table
`dp[i][j]` filled row by row; the answer is `dp[m][n]`, the last entry of the
final row. -/
def levenshteinDistance (str1 str2 : List Char) : Nat :=
  let row0 := List.range (str2.length + 1)
  (levLoop str2 str1 row0 1).getLastD 0

/-- `fuzzyMatch(input, target, threshold = 0.8)`.  The JS code compares IEEE
doubles; at every input the comparison agrees with the exact rational
comparison modelled here: away from the boundary the gap `|1 - d/m - 0.8|` is
at least `1/(5m)`, far above double rounding error, and at the boundary
(`d/m = 1/5` exactly) the double computation `1 - d/m` also rounds to the
double nearest `0.8`, so `>=` holds on both sides. -/
def fuzzyMatch (input target : String) : Bool :=
  let normalizedInput := jsNormalize input
  let normalizedTarget := jsNormalize target
  if normalizedInput = normalizedTarget then true
  else
    let maxLen := Nat.max normalizedInput.length normalizedTarget.length
    if maxLen = 0 then true
    else
      let distance := levenshteinDistance normalizedInput normalizedTarget
      decide ((0.8 : ℚ) ≤ 1 - (distance : ℚ) / (maxLen : ℚ))

-- ============================================================
-- Turn management (getNextGuesser / initializeTurn / advanceTurn)
-- ============================================================

/-- Body of the `for (let i = 1; i <= playerCount; i++)` scan in
`getNextGuesser`.  `i` is the current loop counter, `fuel` the number of
iterations left (`playerCount - i + 1` at entry).  `cIdx` is the JS
`indexOf` result (`-1` when the active guesser is not in the order array);
`(cIdx + i) % n` is computed over `Int` exactly as JS does for these
operands (the dividend is nonnegative since `i ≥ 1`). -/
def scanNext (ps : List (String × Player)) (order : List String) (cIdx : Int) (n : Nat) :
    Nat → Nat → Option String
  | _, 0 => none
  | i, fuel + 1 =>
    let nextIndex := ((cIdx + i) % (n : Int)).toNat
    let nextPlayerId := order.getD nextIndex ""
    match lookupPlayer ps nextPlayerId with
    | some nextPlayer =>
      if !nextPlayer.hasGuessedCorrectly && nextPlayer.isConnected then some nextPlayerId
      else scanNext ps order cIdx n (i + 1) fuel
    | none => scanNext ps order cIdx n (i + 1) fuel

/-- `getNextGuesser(roomCode)`: scan forward from the position after the
current active guesser, wrapping, for the first player that has not guessed
correctly and is connected. -/
def getNextGuesser (room : GameState) : Option String :=
  match room.turnState with
  | none => none
  | some ts =>
    let currentIndex : Int :=
      if ts.activeGuesserId ∈ room.playerOrder then room.playerOrder.indexOf ts.activeGuesserId
      else -1
    let playerCount := room.playerOrder.length
    scanNext room.players room.playerOrder currentIndex playerCount 1 playerCount

/-- `initializeTurn(room, guesserId)` -/
def initTurn (room : GameState) (guesserId : String) (now : Nat) : GameState :=
  { room with
    turnState := some
      { activeGuesserId := guesserId
        turnNumber := ((room.turnState.map TurnState.turnNumber).getD 0) + 1
        turnStartTime := now
        turnDuration := room.settings.turnDuration
        currentQuestion := none } }

/-- `advanceTurn(roomCode)`: pick the next eligible guesser; if none, the room
finishes and its timer is cancelled; otherwise a fresh turn state is
installed. -/
def advanceTurn (s : ServerRoom) (now : Nat) : ServerRoom × Option String :=
  match getNextGuesser s.room with
  | none =>
    ({ room := { s.room with phase := GamePhase.FINISHED }, timerArmed := false }, none)
  | some nextGuesserId =>
    ({ s with room := initTurn s.room nextGuesserId now }, some nextGuesserId)

/-- The callback body installed by `startTurnTimer`, as run when the timeout
fires: the timer itself is consumed by firing; the room is re-fetched and the
firing is a no-op unless the phase is still PLAYING; then the turn is
advanced only when `getNextGuesser` yields a player. -/
def onTimerFire (s : ServerRoom) (now : Nat) : ServerRoom :=
  let s0 : ServerRoom := { s with timerArmed := false }
  if s0.room.phase ≠ GamePhase.PLAYING then s0
  else
    match getNextGuesser s0.room with
    | some _ => (advanceTurn s0 now).1
    | none => s0

-- ============================================================
-- Guessing (makeGuess)
-- ============================================================

structure GuessResult where
  success : Bool
  correct : Bool
  lockUntil : Nat
  gameFinished : Bool
  deriving Repr, DecidableEq

/-- `makeGuess(playerId, guess)` on the player's room.  `now` is `Date.now()`
at the call.  The registry lookup `getRoomByPlayerId` is modelled by the
caller supplying the room; a player id absent from the room fails as in the
source (`players.get` then yields nothing). -/
def makeGuess (s : ServerRoom) (playerId guess : String) (now : Nat) : GuessResult × ServerRoom :=
  let fail : GuessResult := { success := false, correct := false, lockUntil := 0, gameFinished := false }
  if s.room.phase ≠ GamePhase.PLAYING then (fail, s)
  else
    match s.room.turnState with
    | none => (fail, s)
    | some ts =>
      if ts.activeGuesserId ≠ playerId then (fail, s)
      else
        match lookupPlayer s.room.players playerId with
        | none => (fail, s)
        | some player =>
          if now < player.guessLockUntil then
            ({ fail with lockUntil := player.guessLockUntil }, s)
          else
            match player.assignedIdentity with
            | none => (fail, s)
            | some identity =>
              let allPossibleNames := identity.displayName :: identity.allowedAliases
              let isCorrect := allPossibleNames.any (fun name => fuzzyMatch guess name)
              if isCorrect then
                let room1 := { s.room with
                  players := updatePlayer s.room.players playerId
                    (fun p => { p with hasGuessedCorrectly := true }) }
                let allGuessed :=
                  ((room1.players.map Prod.snd).filter Player.isConnected).all
                    Player.hasGuessedCorrectly
                if allGuessed then
                  ({ success := true, correct := true, lockUntil := 0, gameFinished := true },
                   { room := { room1 with phase := GamePhase.FINISHED }, timerArmed := false })
                else
                  let s2 := (advanceTurn { s with room := room1 } now).1
                  ({ success := true, correct := true, lockUntil := 0, gameFinished := false }, s2)
              else
                let lockUntil := now + s.room.settings.guessLockDuration
                let room1 := { s.room with
                  players := updatePlayer s.room.players playerId
                    (fun p => { p with guessLockUntil := lockUntil }) }
                ({ success := true, correct := false, lockUntil := lockUntil, gameFinished := false },
                 { s with room := room1 })

-- ============================================================
-- Question & voting (submitQuestion / submitVote)
-- ============================================================

/-- `submitQuestion(playerId, text)`: `qid` stands for the generated uuid and
`now` for `Date.now()`.  Returns whether it succeeded, the new question, and
the updated room. -/
def submitQuestion (room : GameState) (playerId text qid : String) (now : Nat) :
    Bool × Option Question × GameState :=
  if room.phase ≠ GamePhase.PLAYING then (false, none, room)
  else
    match room.turnState with
    | none => (false, none, room)
    | some ts =>
      if ts.activeGuesserId ≠ playerId then (false, none, room)
      else
        let question : Question :=
          { id := qid, askerId := playerId, text := text.trim, votes := []
            tallyYes := 0, tallyNo := 0, tallyMaybe := 0, timestamp := now }
        let room1 := { room with
          turnState := some { ts with currentQuestion := some question }
          questionHistory := room.questionHistory ++ [question]
          players := updatePlayer room.players playerId
            (fun p => { p with turnsToGuess := p.turnsToGuess + 1 }) }
        (true, some question, room1)

/-- Decrement of `question.voteTally[oldVote]--` followed by the later
increment `question.voteTally[vote]++`, split per bucket. -/
def tallyDec (q : Question) (v : VoteType) : Question :=
  match v with
  | VoteType.YES => { q with tallyYes := q.tallyYes - 1 }
  | VoteType.NO => { q with tallyNo := q.tallyNo - 1 }
  | VoteType.MAYBE => { q with tallyMaybe := q.tallyMaybe - 1 }

def tallyInc (q : Question) (v : VoteType) : Question :=
  match v with
  | VoteType.YES => { q with tallyYes := q.tallyYes + 1 }
  | VoteType.NO => { q with tallyNo := q.tallyNo + 1 }
  | VoteType.MAYBE => { q with tallyMaybe := q.tallyMaybe + 1 }

/-- The mutation `submitVote` performs on the current question once all the
checks passed: replace an existing vote by the same player (adjusting the
tally buckets) or push a new one, then bump the new vote's bucket. -/
def applyVote (q : Question) (playerId : String) (vote : VoteType) : Question :=
  match q.votes.findIdx? (fun v => v.playerId = playerId) with
  | some i =>
    let oldVote := (q.votes.getD i { playerId := playerId, vote := vote }).vote
    let q1 := tallyDec q oldVote
    let q2 := { q1 with votes := q1.votes.set i { playerId := playerId, vote := vote } }
    tallyInc q2 vote
  | none =>
    let q2 := { q with votes := q.votes ++ [{ playerId := playerId, vote := vote }] }
    tallyInc q2 vote

/-- `submitVote(playerId, questionId, vote)`.  On success the updated question
replaces the turn state's current question (the history entry aliases the
same object in the source; the claims below only concern the current
question). -/
def submitVote (room : GameState) (playerId questionId : String) (vote : VoteType) :
    Bool × Option Question × GameState :=
  if room.phase ≠ GamePhase.PLAYING then (false, none, room)
  else
    match room.turnState with
    | none => (false, none, room)
    | some ts =>
      match ts.currentQuestion with
      | none => (false, none, room)
      | some question =>
        if question.id ≠ questionId then (false, none, room)
        else if question.askerId = playerId then (false, none, room)
        else
          let q' := applyVote question playerId vote
          (true, some q',
           { room with turnState := some { ts with currentQuestion := some q' } })

-- ============================================================
-- Assignment (submitAssignment / assignTargets / shuffleArray)
-- ============================================================

/-- `submitAssignment(playerId, identity)`.  Returns `(success, allSubmitted)`
and the (possibly unchanged) room. -/
def submitAssignment (room : GameState) (playerId : String) (identity : PlayerIdentity) :
    (Bool × Bool) × GameState :=
  if room.phase ≠ GamePhase.ASSIGNMENT then ((false, false), room)
  else
    match lookupPlayer room.players playerId with
    | none => ((false, false), room)
    | some assigner =>
      if assigner.hasSubmittedAssignment then ((false, false), room)
      else
        match lookupPlayer room.players assigner.targetPlayerId with
        | none => ((false, false), room)
        | some _ =>
          let ps1 := updatePlayer room.players assigner.targetPlayerId
            (fun p => { p with assignedIdentity := some identity })
          let ps2 := updatePlayer ps1 playerId
            (fun p => { p with hasSubmittedAssignment := true })
          let room1 := { room with players := ps2 }
          let allSubmitted := (room1.players.map Prod.snd).all Player.hasSubmittedAssignment
          ((true, allSubmitted), room1)

/-- One Fisher-Yates swap `[arr[i], arr[j]] = [arr[j], arr[i]]`. -/
def swapList (l : List String) (i j : Nat) : List String :=
  match l.get? i, l.get? j with
  | some a, some b => (l.set i b).set j a
  | _, _ => l

/-- The `for (let i = length - 1; i > 0; i--)` loop of `shuffleArray`.
`rand i` stands for the fresh `Math.random()` draw at index `i`;
`rand i % (i + 1)` is the resulting `Math.floor(Math.random() * (i + 1))`,
an arbitrary value in `[0, i]`. -/
def shuffleAux (rand : Nat → Nat) : List String → Nat → List String
  | l, 0 => l
  | l, k + 1 => shuffleAux rand (swapList l (k + 1) (rand (k + 1) % (k + 2))) k

/-- `shuffleArray(array)` -/
def shuffleArray (rand : Nat → Nat) (l : List String) : List String :=
  shuffleAux rand l (l.length - 1)

/-- One iteration of the target-assignment loop: point the player at position
`i` of the shuffled order at the player at position `(i+1) % n`. -/
def assignStep (shuffled : List String) (n : Nat) (ps : List (String × Player)) (i : Nat) :
    List (String × Player) :=
  let currentPlayerId := shuffled.getD i ""
  let nextPlayerId := shuffled.getD ((i + 1) % n) ""
  updatePlayer ps currentPlayerId (fun p => { p with targetPlayerId := nextPlayerId })

/-- `assignTargets(roomCode)`: shuffle the order, then wire the circular
chain. -/
def assignTargets (rand : Nat → Nat) (room : GameState) : Bool × GameState :=
  if room.playerOrder.length < room.settings.minPlayers then (false, room)
  else
    let shuffledOrder := shuffleArray rand room.playerOrder
    let n := shuffledOrder.length
    let players1 := (List.range n).foldl (assignStep shuffledOrder n) room.players
    (true, { room with playerOrder := shuffledOrder, players := players1 })

-- ============================================================
-- Departure (removePlayer)
-- ============================================================

/-- First mutation step of `removePlayer`: mark disconnected during PLAYING,
otherwise delete the entry and compact the order. -/
def removeDisconnect (room : GameState) (playerId : String) : GameState :=
  if room.phase = GamePhase.PLAYING then
    { room with players :=
        updatePlayer room.players playerId (fun p => { p with isConnected := false }) }
  else
    { room with
      players := room.players.filter (fun e => e.1 ≠ playerId)
      playerOrder := room.playerOrder.filter (fun pid => pid ≠ playerId) }

/-- Second step of `removePlayer`: `if (wasHost && room.players.size > 0)`
assign `playerOrder[0]` as the new host (the JS truthiness test on
`newHostId` rejects an empty string or a missing entry). -/
def reassignHost (room1 : GameState) (wasHost : Bool) : GameState :=
  if wasHost ∧ 0 < room1.players.length then
    match room1.playerOrder.head? with
    | some newHostId => if newHostId ≠ "" then { room1 with hostId := newHostId } else room1
    | none => room1
  else room1

/-- Last step of `removePlayer`: delete the room when its player mapping is
empty or, outside PLAYING, its order sequence is empty. -/
def dropRoomIfEmpty (room2 : GameState) (wasHost : Bool) : Option GameState × Bool :=
  if room2.players.length = 0 ∨ (room2.phase ≠ GamePhase.PLAYING ∧ room2.playerOrder.length = 0)
  then (none, wasHost)
  else (some room2, wasHost)

/-- `removePlayer(playerId)` restricted to the room the registry maps the
player to (the `playerToRoom` lookup is the caller's responsibility here).
Returns the surviving room (`none` when the room was deleted) and `wasHost`. -/
def removePlayer (room : GameState) (playerId : String) : Option GameState × Bool :=
  let wasHost := room.hostId = playerId
  let room1 := removeDisconnect room playerId
  let room2 := reassignHost room1 wasHost
  dropRoomIfEmpty room2 wasHost

-- ============================================================
-- Game completion (getGameResults)
-- ============================================================

structure RankEntry where
  playerId : String
  playerName : String
  turnsToGuess : Nat
  guessedCorrectly : Bool
  deriving Repr, DecidableEq

/-- The comparator passed to `rankings.sort`. -/
def rankCompare (a b : RankEntry) : Int :=
  if a.guessedCorrectly ≠ b.guessedCorrectly then
    (if a.guessedCorrectly then -1 else 1)
  else (a.turnsToGuess : Int) - (b.turnsToGuess : Int)

/-- Stable insertion step: `x` goes after every element that compares `≤ 0`
against it, matching the stable `Array.prototype.sort`. -/
def insertRanked (x : RankEntry) : List RankEntry → List RankEntry
  | [] => [x]
  | y :: ys => if rankCompare y x ≤ 0 then y :: insertRanked x ys else x :: y :: ys

def sortRanked (l : List RankEntry) : List RankEntry :=
  l.foldl (fun acc x => insertRanked x acc) []

/-- `getGameResults(roomCode)`: map the players (in map insertion order) to
ranking entries and sort them with `rankCompare`. -/
def getGameResults (room : GameState) : List RankEntry :=
  sortRanked ((room.players.map Prod.snd).map
    (fun player =>
      { playerId := player.id, playerName := player.name,
        turnsToGuess := player.turnsToGuess, guessedCorrectly := player.hasGuessedCorrectly }))

-- ============================================================
-- Serialization (serializeGameState / serializeGameStateForPlayer)
-- ============================================================

/-- `serializeGameState(room)`: `Object.fromEntries` over a map with distinct
keys keeps the entries as they are, so the serialized snapshot carries the
same data; it is modelled by the identical structure. -/
def serializeGameState (room : GameState) : GameState := room

/-- `serializeGameStateForPlayer(room, playerId)`: the requesting player's own
`assignedIdentity` is removed from their entry unless they have guessed
correctly. -/
def serializeGameStateForPlayer (room : GameState) (playerId : String) : GameState :=
  let serialized := serializeGameState room
  match lookupPlayer serialized.players playerId with
  | some playerData =>
    if !playerData.hasGuessedCorrectly then
      let hidden := updatePlayer serialized.players playerId
        (fun p => { p with assignedIdentity := none })
      { serialized with players := hidden }
    else serialized
  | none => serialized

-- ============================================================
-- Derived notions used to state the claims
-- ============================================================

/-- The current question of a room, when one exists. -/
def currentQuestionOf (room : GameState) : Option Question :=
  room.turnState.bind TurnState.currentQuestion

/-- Number of votes of a given type recorded in a vote list. -/
def voteCount (votes : List Vote) (v : VoteType) : Nat :=
  (votes.filter (fun e => decide (e.vote = v))).length

/-- The tally bucket of a question for a given vote type. -/
def bucketOf (q : Question) (w : VoteType) : Nat :=
  match w with
  | VoteType.YES => q.tallyYes
  | VoteType.NO => q.tallyNo
  | VoteType.MAYBE => q.tallyMaybe

/-- The tally/votes consistency invariant of a question: each tally bucket is
the exact count of entries of that type, and no voter appears twice. -/
def questionInv (q : Question) : Prop :=
  q.tallyYes = voteCount q.votes VoteType.YES ∧
  q.tallyNo = voteCount q.votes VoteType.NO ∧
  q.tallyMaybe = voteCount q.votes VoteType.MAYBE ∧
  (q.votes.map Vote.playerId).Nodup

/-- The invariant, read off the room's current question (trivial when there
is none). -/
def roomQuestionInv (room : GameState) : Prop :=
  ∀ q, currentQuestionOf room = some q → questionInv q

/-- Apply a list of `submitVote` calls (voter, question id, vote) to a room. -/
def runVotes (room : GameState) (ops : List (String × String × VoteType)) : GameState :=
  ops.foldl (fun r op => (submitVote r op.1 op.2.1 op.2.2).2.2) room

/-- The target relation of a room, as a partial function on player ids. -/
def targetOf (room : GameState) (pid : String) : Option String :=
  (lookupPlayer room.players pid).map Player.targetPlayerId

/-- Follow the target chain `k` steps from a player. -/
def iterTarget (room : GameState) : Nat → String → Option String
  | 0, pid => some pid
  | k + 1, pid =>
    match targetOf room pid with
    | none => none
    | some t => iterTarget room k t

/-- Players that are connected and have not yet guessed correctly. -/
def nonGuessedConnected (room : GameState) : List Player :=
  (room.players.map Prod.snd).filter (fun p => p.isConnected && !p.hasGuessedCorrectly)

-- ============================================================
-- Concrete rooms used as witnesses / counterexamples
-- ============================================================

/-- Room in PLAYING with three connected players: A has guessed, B is the
active guesser, C has not guessed.  Exactly two non-guessed connected
players remain. -/
def roomOne : GameState :=
  { roomCode := "ROOMA", hostId := "A", phase := GamePhase.PLAYING,
    players :=
      [("A", { id := "A", name := "Alice", hasGuessedCorrectly := true,
               assignedIdentity := some { displayName := "Zed", allowedAliases := [] } }),
       ("B", { id := "B", name := "Bob",
               assignedIdentity := some { displayName := "The Rock",
                                          allowedAliases := ["Dwayne Johnson"] } }),
       ("C", { id := "C", name := "Carol",
               assignedIdentity := some { displayName := "Ygritte", allowedAliases := [] } })],
    playerOrder := ["A", "B", "C"],
    turnState := some { activeGuesserId := "B", turnNumber := 3, turnStartTime := 0,
                        turnDuration := 45000 } }

/-- Room in PLAYING where no eligible guesser remains: A guessed correctly,
B is disconnected and has not guessed. -/
def roomTwo : GameState :=
  { roomCode := "ROOMB", hostId := "A", phase := GamePhase.PLAYING,
    players :=
      [("A", { id := "A", name := "Alice", hasGuessedCorrectly := true }),
       ("B", { id := "B", name := "Bob", isConnected := false })],
    playerOrder := ["A", "B"],
    turnState := some { activeGuesserId := "B", turnNumber := 7, turnStartTime := 0,
                        turnDuration := 45000 } }

/-- Room in PLAYING where the only connected non-guessed player, B, has
forfeited (`forfeitOrder = 1`). -/
def roomThree : GameState :=
  { roomCode := "ROOMC", hostId := "A", phase := GamePhase.PLAYING,
    players :=
      [("A", { id := "A", name := "Alice", hasGuessedCorrectly := true }),
       ("B", { id := "B", name := "Bob", forfeitOrder := 1 })],
    playerOrder := ["A", "B"],
    turnState := some { activeGuesserId := "A", turnNumber := 2, turnStartTime := 0,
                        turnDuration := 45000 } }

/-- Finished room with a forfeited player P (fewer turns used) and a
non-forfeited player Q. -/
def roomFour : GameState :=
  { roomCode := "ROOMD", hostId := "P", phase := GamePhase.FINISHED,
    players :=
      [("P", { id := "P", name := "Pat", forfeitOrder := 1, turnsToGuess := 0 }),
       ("Q", { id := "Q", name := "Quinn", turnsToGuess := 5 })],
    playerOrder := ["P", "Q"] }

/-- Lobby room with three players, ready for target assignment. -/
def roomFive : GameState :=
  { roomCode := "ROOMF", hostId := "A", phase := GamePhase.LOBBY,
    players :=
      [("A", { id := "A", name := "Alice" }),
       ("B", { id := "B", name := "Bob" }),
       ("C", { id := "C", name := "Carol" })],
    playerOrder := ["A", "B", "C"] }

/-- Playing room with a current question asked by B, used to exercise the
voting invariant. -/
def roomSix : GameState :=
  { roomCode := "ROOMG", hostId := "A", phase := GamePhase.PLAYING,
    players :=
      [("A", { id := "A", name := "Alice" }),
       ("B", { id := "B", name := "Bob" }),
       ("C", { id := "C", name := "Carol" })],
    playerOrder := ["A", "B", "C"],
    turnState := some { activeGuesserId := "B", turnNumber := 1, turnStartTime := 0,
                        turnDuration := 45000,
                        currentQuestion := some { id := "Q1", askerId := "B", text := "Am I real?",
                                                  votes := [], tallyYes := 0, tallyNo := 0,
                                                  tallyMaybe := 0, timestamp := 0 } } }

/-- The current question of `roomSix` after A votes YES and C votes NO. -/
def questionSixMid : Question :=
  { id := "Q1", askerId := "B", text := "Am I real?",
    votes := [{ playerId := "A", vote := VoteType.YES },
              { playerId := "C", vote := VoteType.NO }],
    tallyYes := 1, tallyNo := 1, tallyMaybe := 0, timestamp := 0 }

/-- The same question after A re-votes NO. -/
def questionSixFinal : Question :=
  { id := "Q1", askerId := "B", text := "Am I real?",
    votes := [{ playerId := "A", vote := VoteType.NO },
              { playerId := "C", vote := VoteType.NO }],
    tallyYes := 0, tallyNo := 2, tallyMaybe := 0, timestamp := 0 }

/-- Playing room whose host sits at the front of the order sequence. -/
def roomEight : GameState :=
  { roomCode := "ROOMH", hostId := "H", phase := GamePhase.PLAYING,
    players :=
      [("H", { id := "H", name := "Hank" }),
       ("B", { id := "B", name := "Bob" })],
    playerOrder := ["H", "B"],
    turnState := some { activeGuesserId := "H", turnNumber := 1, turnStartTime := 0,
                        turnDuration := 45000 } }

/-- Assignment-phase room whose (shuffled) order does not start with the
host. -/
def roomEightB : GameState :=
  { roomCode := "ROOMI", hostId := "H", phase := GamePhase.ASSIGNMENT,
    players :=
      [("A", { id := "A", name := "Ann", targetPlayerId := "H" }),
       ("H", { id := "H", name := "Hank", targetPlayerId := "B" }),
       ("B", { id := "B", name := "Bob", targetPlayerId := "A" })],
    playerOrder := ["B", "H", "A"] }

/-- Assignment-phase room with the target chain A -> B -> C -> A. -/
def roomTen : GameState :=
  { roomCode := "ROOMJ", hostId := "A", phase := GamePhase.ASSIGNMENT,
    players :=
      [("A", { id := "A", name := "Alice", targetPlayerId := "B" }),
       ("B", { id := "B", name := "Bob", targetPlayerId := "C" }),
       ("C", { id := "C", name := "Carol", targetPlayerId := "A" })],
    playerOrder := ["A", "B", "C"] }

def identityTen : PlayerIdentity :=
  { displayName := "The Rock", allowedAliases := ["Dwayne Johnson"] }

def identityTenB : PlayerIdentity :=
  { displayName := "Beyonce", allowedAliases := [] }

-- ============================================================
-- Helper lemmas
-- ============================================================

lemma lookupPlayer_updatePlayer (ps : List (String × Player)) (k pid : String)
    (f : Player → Player) :
    lookupPlayer (updatePlayer ps k f) pid =
      if pid = k then (lookupPlayer ps pid).map f else lookupPlayer ps pid := by
  induction ps with
  | nil => simp [lookupPlayer, updatePlayer]
  | cons e t ih =>
    obtain ⟨a, b⟩ := e
    by_cases hak : a = k
    · subst hak
      by_cases hpa : pid = a
      · subst hpa
        simp [lookupPlayer, updatePlayer]
      · have hne : ¬ (a = pid) := fun h => hpa h.symm
        simp only [lookupPlayer, updatePlayer, List.map_cons, if_pos rfl] at *
        rw [List.find?_cons_of_neg, List.find?_cons_of_neg]
        · exact ih
        · simpa using hne
        · simpa using hne
    · by_cases hpa : pid = a
      · subst hpa
        simp [lookupPlayer, updatePlayer, if_neg hak, List.find?_cons_of_pos,
          if_neg (fun h : pid = k => hak (h ▸ rfl))]
      · have hne : ¬ (a = pid) := fun h => hpa h.symm
        simp only [lookupPlayer, updatePlayer, List.map_cons, if_neg hak] at *
        rw [List.find?_cons_of_neg, List.find?_cons_of_neg]
        · exact ih
        · simpa using hne
        · simpa using hne

lemma updatePlayer_keys (ps : List (String × Player)) (k : String) (f : Player → Player) :
    (updatePlayer ps k f).map Prod.fst = ps.map Prod.fst := by
  induction ps with
  | nil => rfl
  | cons e t ih =>
    by_cases hek : e.1 = k <;> simp [updatePlayer, hek] at * <;> simpa using ih

lemma lookupPlayer_isSome_of_mem_keys (ps : List (String × Player)) (pid : String)
    (h : pid ∈ ps.map Prod.fst) : (lookupPlayer ps pid).isSome := by
  induction ps with
  | nil => simp at h
  | cons e t ih =>
    by_cases hpe : e.1 = pid
    · simp [lookupPlayer, List.find?_cons_of_pos, hpe]
    · have hmem : pid ∈ t.map Prod.fst := by
        simp only [List.map_cons, List.mem_cons] at h
        rcases h with h1 | h1
        · exact absurd h1.symm hpe
        · exact h1
      have := ih hmem
      simp only [lookupPlayer] at *
      rwa [List.find?_cons_of_neg]
      simpa using hpe

lemma lookupPlayer_eq_of_mem (ps : List (String × Player)) (e : String × Player)
    (hnd : (ps.map Prod.fst).Nodup) (he : e ∈ ps) : lookupPlayer ps e.1 = some e.2 := by
  induction ps with
  | nil => simp at he
  | cons a t ih =>
    have hnd2 : a.1 ∉ t.map Prod.fst ∧ (t.map Prod.fst).Nodup := by
      simpa [List.nodup_cons] using hnd
    rcases List.mem_cons.mp he with h1 | h1
    · subst h1
      simp [lookupPlayer, List.find?_cons_of_pos]
    · have hne : ¬ (a.1 = e.1) := by
        intro hc
        exact hnd2.1 (hc ▸ List.mem_map_of_mem Prod.fst h1)
      have := ih hnd2.2 h1
      simp only [lookupPlayer] at *
      rwa [List.find?_cons_of_neg]
      simpa using hne

-- ============================================================
-- C2 (code_bug): timer firing with no eligible guesser
-- ============================================================

/-- C2: when the turn timer of `roomTwo` fires, no eligible next guesser
remains (A has guessed correctly, B is disconnected), yet the firing leaves
the room completely unchanged and still in PLAYING — the callback only calls
`advanceTurn` when `getNextGuesser` finds somebody, so the claimed (and
specified) transition to FINISHED never happens; the room is stuck with no
timer armed. -/
theorem c2_timer_noop_without_eligible_guesser :
    getNextGuesser roomTwo = none ∧
    roomTwo.phase = GamePhase.PLAYING ∧
    onTimerFire { room := roomTwo, timerArmed := true } 50000 =
      { room := roomTwo, timerArmed := false } ∧
    (onTimerFire { room := roomTwo, timerArmed := true } 50000).room.phase =
      GamePhase.PLAYING := by
  refine ⟨by decide, by decide, by decide, by decide⟩

-- ============================================================
-- C3 (code_bug): getNextGuesser does not skip forfeited players
-- ============================================================

/-- C3: in `roomThree` player B is connected, has not guessed correctly, and
has `forfeitOrder = 1`; `getNextGuesser` nevertheless returns B, because the
scan only tests `hasGuessedCorrectly` and `isConnected` and never consults
`forfeitOrder`.  The claim says a forfeited player is never returned and that
`none` is returned exactly when no connected, non-guessed, non-forfeited
player exists (here none exists, yet B is returned). -/
theorem c3_getNextGuesser_returns_forfeited :
    getNextGuesser roomThree = some "B" ∧
    (lookupPlayer roomThree.players "B").map Player.forfeitOrder = some 1 ∧
    (lookupPlayer roomThree.players "B").map Player.hasGuessedCorrectly = some false ∧
    (lookupPlayer roomThree.players "B").map Player.isConnected = some true := by
  refine ⟨by decide, by decide, by decide, by decide⟩

-- ============================================================
-- C4 (code_bug): ranking ignores forfeit status
-- ============================================================

/-- C4: in `roomFour` player P has forfeited (`forfeitOrder = 1`) and player
Q has not; the code's ranking places P above Q (the comparator only looks at
`hasGuessedCorrectly` and `turnsToGuess` and the emitted entries do not even
carry a forfeit flag), while the claim requires every forfeited player to
rank below every non-forfeited player. -/
theorem c4_ranking_ignores_forfeit :
    (getGameResults roomFour).map RankEntry.playerId = ["P", "Q"] ∧
    (lookupPlayer roomFour.players "P").map Player.forfeitOrder = some 1 ∧
    (lookupPlayer roomFour.players "Q").map Player.forfeitOrder = some 0 := by
  refine ⟨by decide, by decide, by decide⟩

-- ============================================================
-- C1 (corrected): finish-on-correct-guess condition
-- ============================================================

/-- C1, counterexample: `roomOne` has exactly two non-guessed connected
players (B and C); the active guesser B guesses correctly, yet the room does
NOT transition to FINISHED — the code advances the turn to C, because the
finish check requires every connected player (including C) to have guessed
correctly.  This refutes the claimed scenario "with exactly two non-guessed
connected players remaining, one correct guess transitions the room directly
to FINISHED". -/
theorem c1_counterexample_two_remaining :
    (nonGuessedConnected roomOne).length = 2 ∧
    (makeGuess { room := roomOne, timerArmed := true } "B" "The Rock" 1000).1.correct = true ∧
    (makeGuess { room := roomOne, timerArmed := true } "B" "The Rock" 1000).1.gameFinished
      = false ∧
    (makeGuess { room := roomOne, timerArmed := true } "B" "The Rock" 1000).2.room.phase
      = GamePhase.PLAYING ∧
    ((makeGuess { room := roomOne, timerArmed := true } "B" "The Rock" 1000).2.room.turnState).map
      TurnState.activeGuesserId = some "C" := by
  refine ⟨by decide, by decide, by decide, by decide, by decide⟩

-- ============================================================
-- C8 (corrected): host transfer on departure
-- ============================================================

/-- C8, counterexample: the host H of `roomEight` (in PLAYING, another
player B remains) leaves; the claim says the host role transfers to the next
entry of the order sequence, but the code assigns `playerOrder[0]` — which
during PLAYING is still H itself, so the host role does not move at all. -/
theorem c8_counterexample_host_not_transferred :
    roomEight.phase = GamePhase.PLAYING ∧
    roomEight.hostId = "H" ∧
    (removePlayer roomEight "H").2 = true ∧
    ((removePlayer roomEight "H").1.map GameState.hostId) = some "H" ∧
    ((removePlayer roomEight "H").1.map (fun r => r.players.map Prod.fst)) =
      some ["H", "B"] := by
  refine ⟨by decide, by decide, by decide, by decide, by decide⟩

-- ============================================================
-- C7 (confirmed): the similarity matcher
-- ============================================================

lemma rat_threshold (d m : Nat) (hm : 0 < m) :
    ((0.8 : ℚ) ≤ 1 - (d : ℚ) / (m : ℚ)) ↔ 5 * d ≤ m := by
  have hm' : (0 : ℚ) < (m : ℚ) := by exact_mod_cast hm
  rw [le_sub_comm]
  rw [show (1 : ℚ) - 0.8 = 1 / 5 by norm_num]
  rw [div_le_div_iff₀ hm' (by norm_num : (0 : ℚ) < 5)]
  rw [show (d : ℚ) * 5 = ((5 * d : Nat) : ℚ) by push_cast; ring,
      show (1 : ℚ) * (m : ℚ) = ((m : Nat) : ℚ) by ring]
  exact_mod_cast Iff.rfl

/-- The rational threshold test of `fuzzyMatch`, reduced to an equivalent
natural-number comparison (used to evaluate concrete matches). -/
lemma fuzzyMatch_eq_nat (input target : String) :
    fuzzyMatch input target =
      (decide (jsNormalize input = jsNormalize target) ||
       decide (5 * levenshteinDistance (jsNormalize input) (jsNormalize target) ≤
         Nat.max (jsNormalize input).length (jsNormalize target).length)) := by
  unfold fuzzyMatch
  by_cases heq : jsNormalize input = jsNormalize target
  · simp [heq]
  · by_cases hm : Nat.max (jsNormalize input).length (jsNormalize target).length = 0
    · exfalso
      apply heq
      have h12 := Nat.max_eq_zero_iff.mp hm
      rw [List.length_eq_zero.mp h12.1, List.length_eq_zero.mp h12.2]
    · have h0 : 0 < Nat.max (jsNormalize input).length (jsNormalize target).length :=
        Nat.pos_of_ne_zero hm
      rw [if_neg heq, if_neg hm, decide_eq_false heq, Bool.false_or]
      exact decide_eq_decide.mpr (rat_threshold _ _ h0)

/-- C7: `fuzzyMatch` lower-cases and trims both strings, then accepts exactly
when the normalized strings are equal, or both are empty, or the similarity
`1 - d / max(len1, len2)` reaches the 0.8 threshold, with `d` the classic
insert/delete/substitute edit distance; in particular "the rok" matches
"The Rock" while "Beyonce" matches neither "The Rock" nor "Dwayne Johnson". -/
theorem c7_fuzzyMatch_spec :
    (∀ input target : String,
      fuzzyMatch input target = true ↔
        (jsNormalize input = jsNormalize target ∨
         (jsNormalize input = [] ∧ jsNormalize target = []) ∨
         (0.8 : ℚ) ≤ 1 -
           (levenshteinDistance (jsNormalize input) (jsNormalize target) : ℚ) /
           (Nat.max (jsNormalize input).length (jsNormalize target).length : ℚ))) ∧
    fuzzyMatch "the rok" "The Rock" = true ∧
    fuzzyMatch "Beyonce" "The Rock" = false ∧
    fuzzyMatch "Beyonce" "Dwayne Johnson" = false := by
  refine ⟨?_, ?_, ?_, ?_⟩
  · intro input target
    rw [fuzzyMatch_eq_nat]
    by_cases hm : Nat.max (jsNormalize input).length (jsNormalize target).length = 0
    · have h12 := Nat.max_eq_zero_iff.mp hm
      have e1 := List.length_eq_zero.mp h12.1
      have e2 := List.length_eq_zero.mp h12.2
      simp [e1, e2]
    · have h0 : 0 < Nat.max (jsNormalize input).length (jsNormalize target).length :=
        Nat.pos_of_ne_zero hm
      simp only [Bool.or_eq_true, decide_eq_true_eq]
      constructor
      · rintro (h | h)
        · exact Or.inl h
        · exact Or.inr (Or.inr ((rat_threshold _ _ h0).mpr h))
      · rintro (h | h | h)
        · exact Or.inl h
        · exact absurd (by simp [h.1, h.2] : Nat.max (jsNormalize input).length
            (jsNormalize target).length = 0) hm
        · exact Or.inr ((rat_threshold _ _ h0).mp h)
  · rw [fuzzyMatch_eq_nat]; decide
  · rw [fuzzyMatch_eq_nat]; decide
  · rw [fuzzyMatch_eq_nat]; decide

-- ============================================================
-- C9 (confirmed): per-recipient snapshot
-- ============================================================

/-- C9: the per-recipient snapshot equals the full serialized state in every
field, except that the viewer's own entry loses `assignedIdentity` when the
viewer has not guessed correctly; a viewer who has guessed correctly keeps
their identity, and every other player's entry is returned unchanged. -/
theorem c9_serializeForPlayer_elides_own_identity (room : GameState) (pid : String) :
    (serializeGameStateForPlayer room pid).roomCode = (serializeGameState room).roomCode ∧
    (serializeGameStateForPlayer room pid).hostId = (serializeGameState room).hostId ∧
    (serializeGameStateForPlayer room pid).phase = (serializeGameState room).phase ∧
    (serializeGameStateForPlayer room pid).playerOrder = (serializeGameState room).playerOrder ∧
    (serializeGameStateForPlayer room pid).turnState = (serializeGameState room).turnState ∧
    (serializeGameStateForPlayer room pid).questionHistory
      = (serializeGameState room).questionHistory ∧
    (serializeGameStateForPlayer room pid).createdAt = (serializeGameState room).createdAt ∧
    (serializeGameStateForPlayer room pid).settings = (serializeGameState room).settings ∧
    (serializeGameStateForPlayer room pid).players.map Prod.fst
      = (serializeGameState room).players.map Prod.fst ∧
    ∀ q : String,
      lookupPlayer (serializeGameStateForPlayer room pid).players q =
        if q = pid then
          (lookupPlayer (serializeGameState room).players pid).map
            (fun p => if p.hasGuessedCorrectly then p else { p with assignedIdentity := none })
        else lookupPlayer (serializeGameState room).players q := by
  unfold serializeGameStateForPlayer serializeGameState
  cases hlook : lookupPlayer room.players pid with
  | none =>
    simp only [hlook]
    refine ⟨by trivial, by trivial, by trivial, by trivial, by trivial, by trivial,
      by trivial, by trivial, by trivial, ?_⟩
    intro q
    by_cases hq : q = pid
    · subst hq; simp [hlook]
    · simp [hq]
  | some p =>
    cases hg : p.hasGuessedCorrectly with
    | true =>
      simp only [hlook, hg, Bool.not_true, Bool.false_eq_true, if_false]
      refine ⟨by trivial, by trivial, by trivial, by trivial, by trivial, by trivial,
        by trivial, by trivial, by trivial, ?_⟩
      intro q
      by_cases hq : q = pid
      · subst hq; simp [hlook, hg]
      · simp [hq]
    | false =>
      simp only [hlook, hg, Bool.not_false, if_true]
      refine ⟨by trivial, by trivial, by trivial, by trivial, by trivial, by trivial,
        by trivial, by trivial, updatePlayer_keys _ _ _, ?_⟩
      intro q
      rw [lookupPlayer_updatePlayer]
      by_cases hq : q = pid
      · subst hq; simp [hlook, hg]
      · simp [hq]

-- ============================================================
-- C10 (confirmed): submitAssignment is at-most-once per player
-- ============================================================

lemma submitAssignment_success_sets_flag (room : GameState) (pid : String)
    (idty : PlayerIdentity) (h : (submitAssignment room pid idty).1.1 = true) :
    (submitAssignment room pid idty).2.phase = GamePhase.ASSIGNMENT ∧
    ((lookupPlayer (submitAssignment room pid idty).2.players pid).map
      Player.hasSubmittedAssignment) = some true := by
  unfold submitAssignment at h ⊢
  by_cases hph : room.phase = GamePhase.ASSIGNMENT
  · simp only [hph, ne_eq, not_true_eq_false, if_false] at h ⊢
    cases hA : lookupPlayer room.players pid with
    | none => simp [hA] at h
    | some a =>
      simp only [hA] at h ⊢
      cases hflag : a.hasSubmittedAssignment with
      | true => simp [hflag] at h
      | false =>
        simp only [hflag, Bool.false_eq_true, if_false] at h ⊢
        cases hT : lookupPlayer room.players a.targetPlayerId with
        | none => simp [hT] at h
        | some tp =>
          simp only [hT] at h ⊢
          refine ⟨by trivial, ?_⟩
          rw [lookupPlayer_updatePlayer, if_pos rfl, lookupPlayer_updatePlayer]
          by_cases hsame : pid = a.targetPlayerId
          · rw [if_pos hsame, hA]; rfl
          · rw [if_neg hsame, hA]; rfl
  · simp [hph] at h

/-- C10: `submitAssignment` is at-most-once per player: a caller whose
`hasSubmittedAssignment` flag is already set is rejected with no state
change, and after any successful submission a resubmission by the same
player is rejected and leaves the room untouched — so a player's target's
`assignedIdentity` is written at most once by that assigner. -/
theorem c10_submitAssignment_at_most_once :
    (∀ (room : GameState) (pid : String) (idty : PlayerIdentity) (p : Player),
        lookupPlayer room.players pid = some p →
        p.hasSubmittedAssignment = true →
        submitAssignment room pid idty = ((false, false), room)) ∧
    (∀ (room : GameState) (pid : String) (idty idty2 : PlayerIdentity),
        (submitAssignment room pid idty).1.1 = true →
        submitAssignment (submitAssignment room pid idty).2 pid idty2 =
          ((false, false), (submitAssignment room pid idty).2)) := by
  have part1 : ∀ (room : GameState) (pid : String) (idty : PlayerIdentity) (p : Player),
      lookupPlayer room.players pid = some p → p.hasSubmittedAssignment = true →
      submitAssignment room pid idty = ((false, false), room) := by
    intro room pid idty p hlook hsub
    unfold submitAssignment
    by_cases hph : room.phase = GamePhase.ASSIGNMENT
    · simp only [hph, ne_eq, not_true_eq_false, if_false, hlook]
      simp [hsub]
    · simp [hph]
  refine ⟨part1, ?_⟩
  intro room pid idty idty2 hsucc
  obtain ⟨hph2, hflag2⟩ := submitAssignment_success_sets_flag room pid idty hsucc
  obtain ⟨a2, ha2, ha2flag⟩ := Option.map_eq_some'.mp hflag2
  exact part1 _ pid idty2 a2 ha2 ha2flag

/-- Witness for C10 at a concrete room: a successful submission by A followed
by a resubmission, which is rejected without state change. -/
theorem c10_witness :
    (submitAssignment roomTen "A" identityTen).1.1 = true ∧
    submitAssignment (submitAssignment roomTen "A" identityTen).2 "A" identityTenB =
      ((false, false), (submitAssignment roomTen "A" identityTen).2) :=
  ⟨by decide,
   c10_submitAssignment_at_most_once.2 roomTen "A" identityTen identityTenB (by decide)⟩

-- ============================================================
-- C6 (confirmed): voting tally invariant
-- ============================================================

lemma questionInv_iff (q : Question) :
    questionInv q ↔ ((∀ w, bucketOf q w = voteCount q.votes w) ∧
      (q.votes.map Vote.playerId).Nodup) := by
  constructor
  · rintro ⟨h1, h2, h3, h4⟩
    exact ⟨fun w => by cases w <;> assumption, h4⟩
  · rintro ⟨h, h4⟩
    exact ⟨h VoteType.YES, h VoteType.NO, h VoteType.MAYBE, h4⟩

lemma votes_tallyInc (q : Question) (v : VoteType) : (tallyInc q v).votes = q.votes := by
  cases v <;> rfl

lemma votes_tallyDec (q : Question) (v : VoteType) : (tallyDec q v).votes = q.votes := by
  cases v <;> rfl

lemma bucketOf_tallyInc (q : Question) (v w : VoteType) :
    bucketOf (tallyInc q v) w = bucketOf q w + (if v = w then 1 else 0) := by
  cases v <;> cases w <;> simp [bucketOf, tallyInc]

lemma bucketOf_tallyDec (q : Question) (v w : VoteType) :
    bucketOf (tallyDec q v) w = bucketOf q w - (if v = w then 1 else 0) := by
  cases v <;> cases w <;> simp [bucketOf, tallyDec]

lemma bucketOf_withVotes (q : Question) (l : List Vote) (w : VoteType) :
    bucketOf { q with votes := l } w = bucketOf q w := by
  cases w <;> rfl

lemma list_set_self {A : Type} (l : List A) (i : Nat) (h : i < l.length) :
    l.set i l[i] = l := by
  rw [List.set_eq_take_append_cons_drop, if_pos h, List.getElem_cons_drop,
    List.take_append_drop]

lemma mem_take_index (votes : List Vote) (i : Nat) (x : Vote) (hx : x ∈ votes.take i) :
    ∃ j, ∃ h : j < votes.length, j < i ∧ votes[j] = x := by
  obtain ⟨j, hm, hj⟩ := List.mem_take_iff_getElem.mp hx
  exact ⟨j, (lt_min_iff.mp hm).2, (lt_min_iff.mp hm).1, hj⟩

lemma mem_drop_index (votes : List Vote) (i : Nat) (x : Vote) (hx : x ∈ votes.drop (i + 1)) :
    ∃ j, ∃ h : j < votes.length, i + 1 ≤ j ∧ votes[j] = x := by
  obtain ⟨j, hm, hj⟩ := List.mem_drop_iff_getElem.mp hx
  exact ⟨i + 1 + j, by omega, by omega, hj⟩

lemma voteCount_set (votes : List Vote) (i : Nat) (hi : i < votes.length) (e : Vote)
    (w : VoteType) :
    voteCount (votes.set i e) w + (if votes[i].vote = w then 1 else 0)
      = voteCount votes w + (if e.vote = w then 1 else 0) := by
  conv_rhs => rw [show votes = votes.take i ++ votes[i] :: votes.drop (i + 1) by
    rw [List.getElem_cons_drop, List.take_append_drop]]
  rw [List.set_eq_take_append_cons_drop, if_pos hi]
  unfold voteCount
  rw [List.filter_append, List.filter_append, List.filter_cons, List.filter_cons]
  by_cases h1 : votes[i].vote = w <;> by_cases h2 : e.vote = w <;>
    simp only [h1, h2, decide_eq_true_eq, if_true, if_false,
      List.length_append, List.length_cons, if_pos, ite_true, ite_false] <;>
    omega

lemma voteCount_append_single (votes : List Vote) (e : Vote) (w : VoteType) :
    voteCount (votes ++ [e]) w = voteCount votes w + (if e.vote = w then 1 else 0) := by
  unfold voteCount
  rw [List.filter_append]
  by_cases h : e.vote = w <;> simp [h]

lemma voteCount_pos_of_getElem (votes : List Vote) (i : Nat) (hi : i < votes.length)
    (w : VoteType) (h : votes[i].vote = w) : 1 ≤ voteCount votes w := by
  have hm : votes[i] ∈ votes.filter (fun e => decide (e.vote = w)) :=
    List.mem_filter.mpr ⟨List.getElem_mem hi, by simp [h]⟩
  have := List.length_pos.mpr (List.ne_nil_of_mem hm)
  unfold voteCount
  omega


lemma applyVote_eq_some (q : Question) (pid : String) (v : VoteType) (i : Nat)
    (hfind : q.votes.findIdx? (fun e => decide (e.playerId = pid)) = some i) :
    applyVote q pid v =
      tallyInc { tallyDec q ((q.votes.getD i { playerId := pid, vote := v }).vote) with
        votes := (tallyDec q ((q.votes.getD i { playerId := pid, vote := v }).vote)).votes.set i
          { playerId := pid, vote := v } } v := by
  unfold applyVote
  rw [hfind]

lemma applyVote_eq_none (q : Question) (pid : String) (v : VoteType)
    (hfind : q.votes.findIdx? (fun e => decide (e.playerId = pid)) = none) :
    applyVote q pid v =
      tallyInc { q with votes := q.votes ++ [{ playerId := pid, vote := v }] } v := by
  unfold applyVote
  rw [hfind]

lemma applyVote_characterization (q : Question) (pid : String) (v : VoteType)
    (hinv : questionInv q) :
    questionInv (applyVote q pid v) ∧
    (applyVote q pid v).votes.map Vote.playerId =
      (if pid ∈ q.votes.map Vote.playerId then q.votes.map Vote.playerId
       else q.votes.map Vote.playerId ++ [pid]) ∧
    ((applyVote q pid v).votes.filter (fun e => decide (e.playerId = pid))).map Vote.vote
      = [v] ∧
    (∀ other : String, other ≠ pid →
      (applyVote q pid v).votes.filter (fun e => decide (e.playerId = other)) =
        q.votes.filter (fun e => decide (e.playerId = other))) := by
  obtain ⟨hbucket, hnd⟩ := (questionInv_iff q).mp hinv
  cases hfind : q.votes.findIdx? (fun e => decide (e.playerId = pid)) with
  | none =>
    rw [applyVote_eq_none q pid v hfind]
    have hall : ∀ x ∈ q.votes, ¬ (x.playerId = pid) := by
      intro x hx
      simpa using (List.findIdx?_eq_none_iff.mp hfind) x hx
    have hnotmem : pid ∉ q.votes.map Vote.playerId := by
      intro hmem
      obtain ⟨x, hx, hxe⟩ := List.mem_map.mp hmem
      exact hall x hx hxe
    have hvotes : (tallyInc { q with votes := q.votes ++ [{ playerId := pid, vote := v }] }
        v).votes = q.votes ++ [{ playerId := pid, vote := v }] := votes_tallyInc _ _
    refine ⟨?_, ?_, ?_, ?_⟩
    · rw [questionInv_iff]
      constructor
      · intro w
        rw [hvotes, bucketOf_tallyInc, bucketOf_withVotes, voteCount_append_single,
          hbucket w]
      · rw [hvotes, List.map_append]
        exact List.Nodup.append hnd (List.nodup_singleton pid)
          (by simpa [List.disjoint_singleton] using hnotmem)
    · rw [hvotes, if_neg hnotmem, List.map_append]
      rfl
    · have hfil : q.votes.filter (fun e => decide (e.playerId = pid)) = [] :=
        List.filter_eq_nil_iff.mpr (by intro a ha; simpa using hall a ha)
      rw [hvotes, List.filter_append, hfil]
      simp
    · intro other hother
      have hmid : ¬ ((Vote.mk pid v).playerId = other) := fun h => hother h.symm
      rw [hvotes, List.filter_append]
      simp [hmid]
  | some i =>
    obtain ⟨hi, hp, _⟩ := List.findIdx?_eq_some_iff_getElem.mp hfind
    rw [applyVote_eq_some q pid v i hfind]
    have hpid : q.votes[i].playerId = pid := by simpa using hp
    have hmem : pid ∈ q.votes.map Vote.playerId := by
      rw [← hpid]
      exact List.mem_map_of_mem Vote.playerId (List.getElem_mem hi)
    have hgetD : (q.votes.getD i { playerId := pid, vote := v })
        = q.votes[i] := List.getD_eq_getElem _ _ hi
    have hvotes : (tallyInc { tallyDec q ((q.votes.getD i { playerId := pid, vote := v }).vote) with
        votes := (tallyDec q ((q.votes.getD i { playerId := pid, vote := v }).vote)).votes.set i
          { playerId := pid, vote := v } } v).votes
        = q.votes.set i { playerId := pid, vote := v } := by
      rw [votes_tallyInc, votes_tallyDec]
    have hi2 : i < (q.votes.map Vote.playerId).length := by simpa using hi
    have hmapset : (q.votes.set i { playerId := pid, vote := v }).map Vote.playerId
        = q.votes.map Vote.playerId := by
      rw [List.map_set]
      have hip : (q.votes.map Vote.playerId)[i] = pid := by
        simpa [List.getElem_map] using hpid
      calc (q.votes.map Vote.playerId).set i (Vote.mk pid v).playerId
          = (q.votes.map Vote.playerId).set i ((q.votes.map Vote.playerId)[i]) := by
            rw [hip]
        _ = q.votes.map Vote.playerId := list_set_self _ _ hi2
    have hothers : ∀ j, (hj : j < q.votes.length) → j ≠ i → ¬ (q.votes[j].playerId = pid) := by
      intro j hj hne hc
      have hj2 : j < (q.votes.map Vote.playerId).length := by simpa using hj
      have hji : (q.votes.map Vote.playerId)[j] = (q.votes.map Vote.playerId)[i] := by
        rw [List.getElem_map, List.getElem_map, hc, hpid]
      exact hne (hnd.getElem_inj_iff.mp hji)
    have hdecomp : q.votes.set i { playerId := pid, vote := v }
        = q.votes.take i ++ { playerId := pid, vote := v } :: q.votes.drop (i + 1) := by
      rw [List.set_eq_take_append_cons_drop, if_pos hi]
    refine ⟨?_, ?_, ?_, ?_⟩
    · rw [questionInv_iff]
      constructor
      · intro w
        rw [hvotes, bucketOf_tallyInc, bucketOf_withVotes, bucketOf_tallyDec, hgetD,
          hbucket w]
        have h1 := voteCount_set q.votes i hi { playerId := pid, vote := v } w
        have h2 : (if q.votes[i].vote = w then 1 else 0) ≤ voteCount q.votes w := by
          by_cases hc : q.votes[i].vote = w
          · rw [if_pos hc]; exact voteCount_pos_of_getElem q.votes i hi w hc
          · simp [hc]
        simp only [show ({ playerId := pid, vote := v } : Vote).vote = v from rfl] at h1 ⊢
        omega
      · rw [hvotes, hmapset]
        exact hnd
    · rw [hvotes, hmapset, if_pos hmem]
    · have htake : (q.votes.take i).filter (fun e => decide (e.playerId = pid)) = [] := by
        apply List.filter_eq_nil_iff.mpr
        intro a ha
        obtain ⟨j, hjlen, hjlt, hje⟩ := mem_take_index q.votes i a ha
        simpa [← hje] using hothers j hjlen (by omega)
      have hdrop : (q.votes.drop (i + 1)).filter (fun e => decide (e.playerId = pid)) = [] := by
        apply List.filter_eq_nil_iff.mpr
        intro a ha
        obtain ⟨j, hjlen, hjge, hje⟩ := mem_drop_index q.votes i a ha
        simpa [← hje] using hothers j hjlen (by omega)
      rw [hvotes, hdecomp, List.filter_append, List.filter_cons, htake]
      simp [hdrop]
    · intro other hother
      have hdecomp2 : q.votes = q.votes.take i ++ q.votes[i] :: q.votes.drop (i + 1) := by
        rw [List.getElem_cons_drop, List.take_append_drop]
      have hnewmid : ¬ ((Vote.mk pid v).playerId = other) := fun h => hother h.symm
      have holdmid : ¬ (q.votes[i].playerId = other) := by
        rw [hpid]; exact fun h => hother h.symm
      rw [hvotes, hdecomp]
      conv_rhs => rw [hdecomp2]
      rw [List.filter_append, List.filter_append, List.filter_cons, List.filter_cons]
      simp [hnewmid, holdmid]

lemma currentQuestionOf_submitVote (room : GameState) (pid qid : String) (v : VoteType) :
    (currentQuestionOf (submitVote room pid qid v).2.2 = currentQuestionOf room ∧
      (submitVote room pid qid v).2.2 = room ∧
      (submitVote room pid qid v).1 = false) ∨
    (∃ q0, currentQuestionOf room = some q0 ∧ (submitVote room pid qid v).1 = true ∧
      q0.id = qid ∧ q0.askerId ≠ pid ∧
      (submitVote room pid qid v).2.1 = some (applyVote q0 pid v) ∧
      currentQuestionOf (submitVote room pid qid v).2.2 = some (applyVote q0 pid v)) := by
  unfold submitVote
  by_cases h1 : room.phase = GamePhase.PLAYING
  · simp only [h1, ne_eq, not_true_eq_false, if_false]
    cases hts : room.turnState with
    | none => exact Or.inl ⟨rfl, rfl, rfl⟩
    | some ts =>
      dsimp only []
      cases hcq : ts.currentQuestion with
      | none => exact Or.inl ⟨rfl, rfl, rfl⟩
      | some q0 =>
        dsimp only []
        by_cases hid : q0.id = qid
        · by_cases hask : q0.askerId = pid
          · rw [if_neg (by simpa using hid), if_pos hask]
            exact Or.inl ⟨by trivial, by trivial, by trivial⟩
          · rw [if_neg (by simpa using hid), if_neg hask]
            refine Or.inr ⟨q0, ?_, rfl, hid, hask, rfl, ?_⟩
            · unfold currentQuestionOf
              rw [hts, Option.some_bind, hcq]
            · unfold currentQuestionOf
              rfl
        · rw [if_pos (by simpa using hid)]
          exact Or.inl ⟨by trivial, by trivial, by trivial⟩
  · simp only [h1, ne_eq, not_false_eq_true, if_true]
    exact Or.inl ⟨by trivial, by trivial, by trivial⟩

/-- C6: the voting ledger invariant.  A freshly created question satisfies
the invariant; any `submitVote` call (accepted or rejected) preserves it, and
hence any sequence of calls does; and an accepted vote leaves the caller with
exactly one recorded vote carrying their latest choice while every other
voter's recorded votes are untouched. -/
theorem c6_submitVote_tally_invariant :
    (∀ (room : GameState) (pid text qid : String) (now : Nat) (q : Question),
        (submitQuestion room pid text qid now).2.1 = some q → questionInv q) ∧
    (∀ (room : GameState) (pid qid : String) (v : VoteType),
        roomQuestionInv room → roomQuestionInv (submitVote room pid qid v).2.2) ∧
    (∀ (room : GameState) (ops : List (String × String × VoteType)),
        roomQuestionInv room → roomQuestionInv (runVotes room ops)) ∧
    (∀ (room : GameState) (pid qid : String) (v : VoteType) (q q' : Question),
        currentQuestionOf room = some q → questionInv q →
        (submitVote room pid qid v).1 = true →
        (submitVote room pid qid v).2.1 = some q' →
        ((q'.votes.filter (fun e => decide (e.playerId = pid))).map Vote.vote = [v] ∧
         (q'.votes.map Vote.playerId).Nodup ∧
         ∀ other : String, other ≠ pid →
           q'.votes.filter (fun e => decide (e.playerId = other)) =
             q.votes.filter (fun e => decide (e.playerId = other)))) := by
  have hpres : ∀ (room : GameState) (pid qid : String) (v : VoteType),
      roomQuestionInv room → roomQuestionInv (submitVote room pid qid v).2.2 := by
    intro room pid qid v hinv
    rcases currentQuestionOf_submitVote room pid qid v with ⟨hsame, _, _⟩ | ⟨q0, hq0, _, _, _, _, hcur⟩
    · intro q hq
      exact hinv q (hsame ▸ hq)
    · intro q hq
      rw [hcur] at hq
      injection hq with hq
      subst hq
      exact (applyVote_characterization q0 pid v (hinv q0 hq0)).1
  refine ⟨?_, hpres, ?_, ?_⟩
  · intro room pid text qid now q h
    unfold submitQuestion at h
    by_cases h1 : room.phase = GamePhase.PLAYING
    · simp only [h1, ne_eq, not_true_eq_false, if_false] at h
      cases hts : room.turnState with
      | none => rw [hts] at h; cases h
      | some ts =>
        rw [hts] at h
        dsimp only [] at h
        by_cases hact : ts.activeGuesserId = pid
        · rw [if_neg (by simpa using hact)] at h
          dsimp only [] at h
          injection h with h
          subst h
          constructor <;> simp [voteCount]
        · rw [if_pos (by simpa using hact)] at h
          cases h
    · simp [h1] at h
  · intro room ops
    induction ops generalizing room with
    | nil => intro h; exact h
    | cons op rest ih =>
      intro h
      exact ih _ (hpres room op.1 op.2.1 op.2.2 h)
  · intro room pid qid v q q' hq hqinv hsucc hq'
    rcases currentQuestionOf_submitVote room pid qid v with ⟨_, _, hfail⟩ | ⟨q0, hq0, _, _, _, hret, _⟩
    · rw [hsucc] at hfail
      cases hfail
    · rw [hq0] at hq
      injection hq with hqe
      rw [hret] at hq'
      injection hq' with hqe'
      have hch := applyVote_characterization q0 pid v (by rwa [hqe] : questionInv q0)
      refine ⟨?_, ?_, ?_⟩
      · rw [← hqe']
        exact hch.2.2.1
      · rw [← hqe']
        exact ((questionInv_iff _).mp hch.1).2
      · intro other hother
        rw [← hqe', ← hqe]
        exact hch.2.2.2 other hother

/-- Witness for C6: A votes YES, C votes NO, then A re-votes NO on the current
question of `roomSix`; the accepted re-vote leaves A with the single recorded
vote NO. -/
theorem c6_witness :
    ((submitVote (runVotes roomSix [("A", "Q1", VoteType.YES), ("C", "Q1", VoteType.NO)])
        "A" "Q1" VoteType.NO).2.1.map
      (fun q' => (q'.votes.filter (fun e => decide (e.playerId = "A"))).map Vote.vote))
      = some [VoteType.NO] := by
  have h := c6_submitVote_tally_invariant.2.2.2
    (runVotes roomSix [("A", "Q1", VoteType.YES), ("C", "Q1", VoteType.NO)])
    "A" "Q1" VoteType.NO questionSixMid questionSixFinal
    (by decide) (by unfold questionInv questionSixMid; decide) (by decide) (by decide)
  rw [show (submitVote (runVotes roomSix [("A", "Q1", VoteType.YES), ("C", "Q1", VoteType.NO)])
        "A" "Q1" VoteType.NO).2.1 = some questionSixFinal from by decide]
  rw [Option.map_some']
  rw [h.1]

-- ============================================================
-- C8 (corrected): removePlayer characterization
-- ============================================================

lemma filter_ne_of_not_mem (ps : List (String × Player)) (pid : String)
    (h : pid ∉ ps.map Prod.fst) : ps.filter (fun e => e.1 ≠ pid) = ps := by
  apply List.filter_eq_self.mpr
  intro e he
  simp only [ne_eq, decide_eq_true_eq]
  intro hc
  exact h (hc ▸ List.mem_map_of_mem Prod.fst he)

lemma length_filter_ne (ps : List (String × Player)) (pid : String)
    (hnd : (ps.map Prod.fst).Nodup) (hmem : pid ∈ ps.map Prod.fst) :
    (ps.filter (fun e => e.1 ≠ pid)).length + 1 = ps.length := by
  induction ps with
  | nil => simp at hmem
  | cons a t ih =>
    have hnd2 : a.1 ∉ t.map Prod.fst ∧ (t.map Prod.fst).Nodup := by
      simpa [List.nodup_cons] using hnd
    by_cases ha : a.1 = pid
    · rw [List.filter_cons_of_neg (by simp [ha])]
      rw [filter_ne_of_not_mem t pid (ha ▸ hnd2.1)]
      simp
    · have hmem' : pid ∈ t.map Prod.fst := by
        simp only [List.map_cons, List.mem_cons] at hmem
        rcases hmem with h | h
        · exact absurd h.symm ha
        · exact h
      rw [List.filter_cons_of_pos (by simp [ha])]
      simp only [List.length_cons]
      rw [← ih hnd2.2 hmem']

lemma lookupPlayer_filter_ne (ps : List (String × Player)) (pid q : String) (hq : q ≠ pid) :
    lookupPlayer (ps.filter (fun e => e.1 ≠ pid)) q = lookupPlayer ps q := by
  induction ps with
  | nil => rfl
  | cons a t ih =>
    by_cases ha : a.1 = pid
    · rw [List.filter_cons_of_neg (by simp [ha])]
      have : ¬ (a.1 = q) := fun hc => hq (hc ▸ ha : q = pid)
      unfold lookupPlayer at *
      rw [List.find?_cons_of_neg _ (by simpa using this)]
      exact ih
    · rw [List.filter_cons_of_pos (by simp [ha])]
      by_cases haq : a.1 = q
      · unfold lookupPlayer
        rw [List.find?_cons_of_pos _ (by simpa using haq),
          List.find?_cons_of_pos _ (by simpa using haq)]
      · unfold lookupPlayer at *
        rw [List.find?_cons_of_neg _ (by simpa using haq),
          List.find?_cons_of_neg _ (by simpa using haq)]
        exact ih

lemma lookupPlayer_filter_self (ps : List (String × Player)) (pid : String) :
    lookupPlayer (ps.filter (fun e => e.1 ≠ pid)) pid = none := by
  induction ps with
  | nil => rfl
  | cons a t ih =>
    by_cases ha : a.1 = pid
    · rw [List.filter_cons_of_neg (by simp [ha])]
      exact ih
    · rw [List.filter_cons_of_pos (by simp [ha])]
      unfold lookupPlayer at *
      rw [List.find?_cons_of_neg _ (by simpa using ha)]
      exact ih


lemma dropRoomIfEmpty_snd (r : GameState) (w : Bool) : (dropRoomIfEmpty r w).2 = w := by
  unfold dropRoomIfEmpty
  split <;> rfl

lemma perm_ne_nil_of_mem {l1 l2 : List String} (h : l1.Perm l2) (a : String) (ha : a ∈ l2) :
    l1 ≠ [] := by
  intro hc
  rw [hc] at h
  rw [h.symm.eq_nil] at ha
  cases ha

/-- C8, amended: during PLAYING, `removePlayer` only flips the departing
player's `isConnected` off (mapping and order intact); in any other phase it
removes the entry and compacts the order (deleting the room when it empties).
When the departing player was host and other players remain, the host role is
reassigned to the FIRST entry of the (possibly compacted) order sequence —
which outside PLAYING is the first remaining player, but during PLAYING may
still be the departing player themself. -/
theorem c8_amended_removePlayer (room : GameState) (pid : String)
    (hnd : (room.players.map Prod.fst).Nodup)
    (hmem : pid ∈ room.players.map Prod.fst)
    (horder : room.playerOrder.Perm (room.players.map Prod.fst))
    (hne : "" ∉ room.players.map Prod.fst) :
    ((removePlayer room pid).2 = true ↔ room.hostId = pid) ∧
    (room.phase = GamePhase.PLAYING →
      ∃ r2, (removePlayer room pid).1 = some r2 ∧
        r2.playerOrder = room.playerOrder ∧
        r2.players.map Prod.fst = room.players.map Prod.fst ∧
        lookupPlayer r2.players pid =
          (lookupPlayer room.players pid).map (fun p => { p with isConnected := false }) ∧
        (∀ q : String, q ≠ pid → lookupPlayer r2.players q = lookupPlayer room.players q) ∧
        r2.phase = room.phase ∧ r2.turnState = room.turnState ∧
        r2.hostId = (if room.hostId = pid then room.playerOrder.headD "" else room.hostId)) ∧
    (room.phase ≠ GamePhase.PLAYING →
      (room.players.length = 1 → (removePlayer room pid).1 = none) ∧
      (1 < room.players.length →
        ∃ r2, (removePlayer room pid).1 = some r2 ∧
          r2.players = room.players.filter (fun e => e.1 ≠ pid) ∧
          r2.playerOrder = room.playerOrder.filter (fun x => x ≠ pid) ∧
          r2.phase = room.phase ∧ r2.turnState = room.turnState ∧
          r2.hostId = (if room.hostId = pid
            then (room.playerOrder.filter (fun x => x ≠ pid)).headD ""
            else room.hostId))) := by
  have hkeys_ne : room.players.map Prod.fst ≠ [] := List.ne_nil_of_mem hmem
  have hkeys_pos : 0 < room.players.length := by
    have := List.length_pos.mpr hkeys_ne
    simpa using this
  have hrp : removePlayer room pid
      = dropRoomIfEmpty (reassignHost (removeDisconnect room pid) (room.hostId = pid))
          (room.hostId = pid) := rfl
  refine ⟨?_, ?_, ?_⟩
  · rw [hrp, dropRoomIfEmpty_snd]
    exact decide_eq_true_iff
  · intro hph
    have h1 : removeDisconnect room pid
        = { room with
            players := updatePlayer room.players pid
                         (fun p => { p with isConnected := false }) } := by
      unfold removeDisconnect
      rw [if_pos hph]
    have hlen1 : (updatePlayer room.players pid
        (fun p => { p with isConnected := false })).length = room.players.length := by
      unfold updatePlayer
      rw [List.length_map]
    have hord_ne : room.playerOrder ≠ [] := perm_ne_nil_of_mem horder pid hmem
    obtain ⟨h0, t0, hht⟩ := List.exists_cons_of_ne_nil hord_ne
    have hh0mem : h0 ∈ room.players.map Prod.fst := horder.subset (by rw [hht]; simp)
    have hh0ne : h0 ≠ "" := fun hc => hne (hc ▸ hh0mem)
    by_cases hw : room.hostId = pid
    · have h2 : reassignHost (removeDisconnect room pid) (room.hostId = pid)
          = { removeDisconnect room pid with hostId := h0 } := by
        unfold reassignHost
        rw [if_pos ⟨decide_eq_true hw, by rw [h1]; simpa [hlen1] using hkeys_pos⟩]
        rw [show (removeDisconnect room pid).playerOrder.head? = some h0 by
          rw [h1]; show room.playerOrder.head? = some h0; rw [hht]; rfl]
        dsimp only []
        rw [if_pos hh0ne]
      rw [hrp, h2, h1]
      unfold dropRoomIfEmpty
      rw [if_neg (by
        dsimp only []
        simp only [not_or]
        constructor
        · rw [hlen1]
          omega
        · intro hc
          exact absurd hph hc.1)]
      refine ⟨_, rfl, ?_, ?_, ?_, ?_, ?_, ?_, ?_⟩
      · exact rfl
      · dsimp only []
        exact updatePlayer_keys _ _ _
      · dsimp only []
        rw [lookupPlayer_updatePlayer, if_pos rfl]
      · intro q hq
        dsimp only []
        rw [lookupPlayer_updatePlayer, if_neg hq]
      · exact rfl
      · exact rfl
      · dsimp only []
        rw [if_pos hw, hht]
        rfl
    · have h2 : reassignHost (removeDisconnect room pid) (room.hostId = pid)
          = removeDisconnect room pid := by
        unfold reassignHost
        rw [if_neg (by
          intro hc
          exact hw (of_decide_eq_true hc.1))]
      rw [hrp, h2, h1]
      unfold dropRoomIfEmpty
      rw [if_neg (by
        dsimp only []
        simp only [not_or]
        constructor
        · rw [hlen1]
          omega
        · intro hc
          exact absurd hph hc.1)]
      refine ⟨_, rfl, ?_, ?_, ?_, ?_, ?_, ?_, ?_⟩
      · exact rfl
      · dsimp only []
        exact updatePlayer_keys _ _ _
      · dsimp only []
        rw [lookupPlayer_updatePlayer, if_pos rfl]
      · intro q hq
        dsimp only []
        rw [lookupPlayer_updatePlayer, if_neg hq]
      · exact rfl
      · exact rfl
      · dsimp only []
        rw [if_neg hw]
  · intro hph
    have h1 : removeDisconnect room pid = { room with
        players := room.players.filter (fun e => e.1 ≠ pid)
        playerOrder := room.playerOrder.filter (fun x => x ≠ pid) } := by
      unfold removeDisconnect
      rw [if_neg hph]
    have hlenf : (room.players.filter (fun e => e.1 ≠ pid)).length + 1
        = room.players.length := length_filter_ne room.players pid hnd hmem
    have hfkeys : (room.players.map Prod.fst).filter (fun x => x ≠ pid)
        = (room.players.filter (fun e => e.1 ≠ pid)).map Prod.fst := by
      rw [List.filter_map]
      rfl
    have hordf : (room.playerOrder.filter (fun x => x ≠ pid)).Perm
        ((room.players.filter (fun e => e.1 ≠ pid)).map Prod.fst) := by
      rw [← hfkeys]
      exact horder.filter _
    have hordlen : (room.playerOrder.filter (fun x => x ≠ pid)).length
        = (room.players.filter (fun e => e.1 ≠ pid)).length := by
      rw [hordf.length_eq, List.length_map]
    constructor
    · intro hlen1
      have hempty : (room.players.filter (fun e => e.1 ≠ pid)).length = 0 := by omega
      by_cases hw : room.hostId = pid
      · have h2 : reassignHost (removeDisconnect room pid) (room.hostId = pid)
            = removeDisconnect room pid := by
          unfold reassignHost
          rw [if_neg (by
            intro hc
            rw [h1] at hc
            have := hc.2
            simp only [] at this
            omega)]
        rw [hrp, h2, h1]
        unfold dropRoomIfEmpty
        rw [if_pos (Or.inl (by simpa using hempty))]
      · have h2 : reassignHost (removeDisconnect room pid) (room.hostId = pid)
            = removeDisconnect room pid := by
          unfold reassignHost
          rw [if_neg (by
            intro hc
            exact hw (of_decide_eq_true hc.1))]
        rw [hrp, h2, h1]
        unfold dropRoomIfEmpty
        rw [if_pos (Or.inl (by simpa using hempty))]
    · intro hlen2
      have hfpos : 0 < (room.players.filter (fun e => e.1 ≠ pid)).length := by omega
      have hofpos : 0 < (room.playerOrder.filter (fun x => x ≠ pid)).length := by omega
      obtain ⟨h0, t0, hht⟩ := List.exists_cons_of_ne_nil
        (show (room.playerOrder.filter (fun x => x ≠ pid)) ≠ [] from
          fun hc => by rw [hc] at hofpos; simp at hofpos)
      have hh0mem : h0 ∈ (room.players.filter (fun e => e.1 ≠ pid)).map Prod.fst :=
        hordf.subset (by rw [hht]; simp)
      have hh0ne : h0 ≠ "" := by
        intro hc
        rw [← hfkeys] at hh0mem
        exact hne (hc ▸ (List.mem_filter.mp hh0mem).1)
      by_cases hw : room.hostId = pid
      · have h2 : reassignHost (removeDisconnect room pid) (room.hostId = pid)
            = { removeDisconnect room pid with hostId := h0 } := by
          unfold reassignHost
          rw [if_pos ⟨decide_eq_true hw, by rw [h1]; simpa using hfpos⟩]
          rw [show (removeDisconnect room pid).playerOrder.head? = some h0 by
            rw [h1]; show (room.playerOrder.filter (fun x => x ≠ pid)).head? = some h0
            rw [hht]; rfl]
          dsimp only []
          rw [if_pos hh0ne]
        rw [hrp, h2, h1]
        unfold dropRoomIfEmpty
        rw [if_neg (by
          dsimp only []
          simp only [not_or]
          constructor
          · omega
          · intro hc
            have := hc.2
            omega)]
        refine ⟨_, rfl, ?_, ?_, ?_, ?_, ?_⟩
        · exact rfl
        · exact rfl
        · exact rfl
        · exact rfl
        · dsimp only []
          rw [if_pos hw, hht]
          rfl
      · have h2 : reassignHost (removeDisconnect room pid) (room.hostId = pid)
            = removeDisconnect room pid := by
          unfold reassignHost
          rw [if_neg (by
            intro hc
            exact hw (of_decide_eq_true hc.1))]
        rw [hrp, h2, h1]
        unfold dropRoomIfEmpty
        rw [if_neg (by
          dsimp only []
          simp only [not_or]
          constructor
          · omega
          · intro hc
            have := hc.2
            omega)]
        refine ⟨_, rfl, ?_, ?_, ?_, ?_, ?_⟩
        · exact rfl
        · exact rfl
        · exact rfl
        · exact rfl
        · dsimp only []
          rw [if_neg hw]

/-- Witness for C8 at a concrete room: the host H of the ASSIGNMENT-phase
`roomEightB` (order [B, H, A]) leaves; the host role goes to B, the first
remaining entry of the compacted order. -/
theorem c8_witness :
    ((removePlayer roomEightB "H").1.map GameState.hostId) = some "B" := by
  obtain ⟨-, -, h3⟩ := c8_amended_removePlayer roomEightB "H"
    (by decide) (by decide) (by decide) (by decide)
  obtain ⟨r2, hr2, -, -, -, -, hhost⟩ := (h3 (by decide)).2 (by decide)
  rw [hr2, Option.map_some', hhost]
  decide

-- ============================================================
-- C1 (corrected): makeGuess on a correct guess
-- ============================================================

/-- An index of the order sequence holding a player that the scan of
`getNextGuesser` accepts. -/
def eligAt (ps : List (String × Player)) (order : List String) (idx : Nat) : Prop :=
  ∃ pl, lookupPlayer ps (order.getD idx "") = some pl ∧
    (!pl.hasGuessedCorrectly && pl.isConnected) = true

lemma scanIndex_norm (cIdx : Int) (n : Nat) (hn : 0 < n) (i : Nat) (hi : 1 ≤ i) :
    ((cIdx + (i : Int)) % (n : Int)).toNat
      = (((cIdx + 1) % (n : Int)).toNat + (i - 1)) % n := by
  have hnz : (n : Int) ≠ 0 := by exact_mod_cast Nat.pos_iff_ne_zero.mp hn
  have hnn : 0 ≤ (cIdx + 1) % (n : Int) := Int.emod_nonneg _ hnz
  set c : Nat := ((cIdx + 1) % (n : Int)).toNat with hcdef
  have hcast : ((c : Int)) = (cIdx + 1) % (n : Int) := Int.toNat_of_nonneg hnn
  have hsplit : (cIdx + (i : Int)) = (cIdx + 1) + ((i - 1 : Nat) : Int) := by
    have h1 : ((i - 1 : Nat) : Int) = (i : Int) - 1 := by
      push_cast [Nat.cast_sub hi]
      ring
    rw [h1]
    ring
  rw [hsplit, Int.add_emod, ← hcast]
  rw [show ((i - 1 : Nat) : Int) % (n : Int) = (((i - 1) % n : Nat) : Int) from
    (Int.natCast_mod _ _).symm]
  rw [show ((c : Int) + (((i - 1) % n : Nat) : Int)) = ((c + (i - 1) % n : Nat) : Int) by
    push_cast
    ring]
  rw [show (((c + (i - 1) % n : Nat) : Int)) % (n : Int)
      = (((c + (i - 1) % n) % n : Nat) : Int) from (Int.natCast_mod _ _).symm]
  rw [Int.toNat_natCast]
  rw [Nat.add_mod_mod]

lemma scanNext_isSome (ps : List (String × Player)) (order : List String) (cIdx : Int)
    (n : Nat) :
    ∀ (fuel i : Nat),
      (∃ k, k < fuel ∧ eligAt ps order (((cIdx + ((i + k : Nat) : Int)) % (n : Int)).toNat)) →
      (scanNext ps order cIdx n i fuel).isSome = true := by
  intro fuel
  induction fuel with
  | zero =>
    rintro i ⟨k, hk, -⟩
    omega
  | succ fuel ih =>
    rintro i ⟨k, hk, hel⟩
    unfold scanNext
    dsimp only []
    split
    · next pl hl =>
      split
      · rfl
      · next hflag =>
        apply ih (i + 1)
        rcases Nat.eq_zero_or_pos k with hk0 | hkpos
        · exfalso
          subst hk0
          obtain ⟨pl2, hpl2, hflag2⟩ := hel
          rw [show ((i + 0 : Nat) : Int) = (i : Int) by push_cast; ring] at hpl2
          rw [hl] at hpl2
          injection hpl2 with hpl2
          subst hpl2
          exact hflag hflag2
        · refine ⟨k - 1, by omega, ?_⟩
          rw [show ((i + 1) + (k - 1) : Nat) = (i + k : Nat) by omega]
          exact hel
    · next hl =>
      apply ih (i + 1)
      rcases Nat.eq_zero_or_pos k with hk0 | hkpos
      · exfalso
        subst hk0
        obtain ⟨pl2, hpl2, hflag2⟩ := hel
        rw [show ((i + 0 : Nat) : Int) = (i : Int) by push_cast; ring] at hpl2
        rw [hl] at hpl2
        cases hpl2
      · refine ⟨k - 1, by omega, ?_⟩
        rw [show ((i + 1) + (k - 1) : Nat) = (i + k : Nat) by omega]
        exact hel

/-- The scan of `getNextGuesser` succeeds whenever some connected,
non-guessed player occurs in the order sequence and the player mapping. -/
lemma getNextGuesser_isSome (room : GameState) (ts : TurnState)
    (hts : room.turnState = some ts)
    (e : String × Player) (he : e ∈ room.players)
    (hnd : (room.players.map Prod.fst).Nodup)
    (hconn : e.2.isConnected = true) (hg : e.2.hasGuessedCorrectly = false)
    (hmem : e.1 ∈ room.playerOrder) :
    (getNextGuesser room).isSome = true := by
  unfold getNextGuesser
  rw [hts]
  dsimp only []
  obtain ⟨j, hj, hje⟩ := List.mem_iff_getElem.mp hmem
  have hn : 0 < room.playerOrder.length := by omega
  apply scanNext_isSome
  set cIdx : Int := if ts.activeGuesserId ∈ room.playerOrder
    then ((room.playerOrder.indexOf ts.activeGuesserId : Nat) : Int) else -1 with hcIdx
  set n : Nat := room.playerOrder.length with hn2
  set c : Nat := ((cIdx + 1) % (n : Int)).toNat with hcdef
  have hclt : c < n := by
    have h1 : 0 ≤ (cIdx + 1) % (n : Int) :=
      Int.emod_nonneg _ (by exact_mod_cast Nat.pos_iff_ne_zero.mp hn)
    have h2 : (cIdx + 1) % (n : Int) < (n : Int) :=
      Int.emod_lt_of_pos _ (by exact_mod_cast hn)
    omega
  refine ⟨(j + n - c) % n, Nat.mod_lt _ hn, ?_⟩
  rw [show ((1 + ((j + n - c) % n) : Nat) : Int)
      = (((1 + (j + n - c) % n : Nat)) : Int) from rfl]
  rw [scanIndex_norm cIdx n hn (1 + (j + n - c) % n) (by omega)]
  rw [show (1 + (j + n - c) % n) - 1 = (j + n - c) % n by omega]
  rw [← hcdef]
  rw [Nat.add_mod_mod]
  rw [show c + (j + n - c) = j + n by omega]
  rw [Nat.add_mod_right, Nat.mod_eq_of_lt hj]
  refine ⟨e.2, ?_, ?_⟩
  · rw [List.getD_eq_getElem _ _ hj, hje]
    exact lookupPlayer_eq_of_mem room.players e hnd he
  · rw [hconn, hg]
    rfl

/-- C1, amended: a correct guess by the active guesser sets that player's
`hasGuessedCorrectly`; the room transitions immediately to FINISHED (with the
timer cancelled, bypassing the scheduler) if and only if this leaves every
connected player guessed-correctly; otherwise the turn advances (the phase
stays PLAYING and the turn counter increments).  With exactly two non-guessed
connected players remaining, a correct guess therefore advances the turn
rather than finishing the room. -/
theorem c1_amended_makeGuess_correct (s : ServerRoom) (pid guess : String) (now : Nat)
    (ts : TurnState) (pl : Player) (idty : PlayerIdentity)
    (hph : s.room.phase = GamePhase.PLAYING)
    (hts : s.room.turnState = some ts)
    (hact : ts.activeGuesserId = pid)
    (hlook : lookupPlayer s.room.players pid = some pl)
    (hlock : pl.guessLockUntil ≤ now)
    (hid : pl.assignedIdentity = some idty)
    (hcorrect : ((idty.displayName :: idty.allowedAliases).any
      (fun name => fuzzyMatch guess name)) = true)
    (hnd : (s.room.players.map Prod.fst).Nodup)
    (horder : s.room.playerOrder.Perm (s.room.players.map Prod.fst)) :
    (makeGuess s pid guess now).1.success = true ∧
    (makeGuess s pid guess now).1.correct = true ∧
    (lookupPlayer (makeGuess s pid guess now).2.room.players pid).map
      Player.hasGuessedCorrectly = some true ∧
    ((makeGuess s pid guess now).1.gameFinished = true ↔
      (((updatePlayer s.room.players pid (fun p => { p with hasGuessedCorrectly := true })).map
          Prod.snd).filter Player.isConnected).all Player.hasGuessedCorrectly = true) ∧
    ((((updatePlayer s.room.players pid (fun p => { p with hasGuessedCorrectly := true })).map
          Prod.snd).filter Player.isConnected).all Player.hasGuessedCorrectly = true →
      (makeGuess s pid guess now).2.room.phase = GamePhase.FINISHED ∧
      (makeGuess s pid guess now).2.timerArmed = false) ∧
    ((((updatePlayer s.room.players pid (fun p => { p with hasGuessedCorrectly := true })).map
          Prod.snd).filter Player.isConnected).all Player.hasGuessedCorrectly = false →
      (makeGuess s pid guess now).2.room.phase = GamePhase.PLAYING ∧
      ((makeGuess s pid guess now).2.room.turnState).map TurnState.turnNumber
        = some (ts.turnNumber + 1)) := by
  have hunfold : makeGuess s pid guess now =
      (let room1 := { s.room with
         players := updatePlayer s.room.players pid
           (fun p => { p with hasGuessedCorrectly := true }) }
       let allGuessed := ((room1.players.map Prod.snd).filter Player.isConnected).all
          Player.hasGuessedCorrectly
       if allGuessed then
         ({ success := true, correct := true, lockUntil := 0, gameFinished := true },
          { room := { room1 with phase := GamePhase.FINISHED }, timerArmed := false })
       else
         let s2 := (advanceTurn { s with room := room1 } now).1
         ({ success := true, correct := true, lockUntil := 0, gameFinished := false }, s2)) := by
    unfold makeGuess
    rw [if_neg (by simp [hph]), hts]
    dsimp only []
    rw [if_neg (by simp [hact]), hlook]
    dsimp only []
    rw [if_neg (by omega), hid]
    dsimp only []
    rw [if_pos hcorrect]
  rw [hunfold]
  dsimp only []
  set players1 := updatePlayer s.room.players pid
    (fun p => { p with hasGuessedCorrectly := true }) with hp1
  by_cases hall : ((players1.map Prod.snd).filter Player.isConnected).all
      Player.hasGuessedCorrectly = true
  · rw [if_pos hall]
    refine ⟨rfl, rfl, ?_, by simp [hall], fun _ => ⟨rfl, rfl⟩, fun hc => by rw [hall] at hc; cases hc⟩
    show (lookupPlayer players1 pid).map Player.hasGuessedCorrectly = some true
    rw [hp1, lookupPlayer_updatePlayer, if_pos rfl, hlook]
    rfl
  · rw [if_neg hall]
    have hall' : ((players1.map Prod.snd).filter Player.isConnected).all
        Player.hasGuessedCorrectly = false := by
      cases hgb : ((players1.map Prod.snd).filter Player.isConnected).all
          Player.hasGuessedCorrectly
      · rfl
      · exact absurd hgb hall
    obtain ⟨p, hpmem, hpng⟩ := List.all_eq_false.mp hall'
    have hpfil := List.mem_filter.mp hpmem
    obtain ⟨e, he, hee⟩ := List.mem_map.mp hpfil.1
    have hkeys1 : players1.map Prod.fst = s.room.players.map Prod.fst :=
      updatePlayer_keys _ _ _
    have hnd1 : (players1.map Prod.fst).Nodup := by rw [hkeys1]; exact hnd
    have heorder : e.1 ∈ { s.room with players := players1 }.playerOrder := by
      show e.1 ∈ s.room.playerOrder
      rw [horder.mem_iff, ← hkeys1]
      exact List.mem_map_of_mem Prod.fst he
    have hgn : (getNextGuesser { s.room with players := players1 }).isSome = true := by
      refine getNextGuesser_isSome _ ts hts e he hnd1 ?_ ?_ heorder
      · rw [hee]; exact hpfil.2
      · rw [hee]; exact Bool.not_eq_true _ ▸ (by simpa using hpng)
    obtain ⟨nid, hnid⟩ := Option.isSome_iff_exists.mp hgn
    have hadv : (advanceTurn { s with room := { s.room with players := players1 } } now).1
        = { s with room := initTurn { s.room with players := players1 } nid now } := by
      unfold advanceTurn
      rw [show ({ s with room := { s.room with players := players1 } } : ServerRoom).room
          = { s.room with players := players1 } from rfl]
      rw [hnid]
    rw [hadv]
    refine ⟨rfl, rfl, ?_, by simp [hall'], fun hc => absurd hc hall, fun _ => ⟨hph, ?_⟩⟩
    · show (lookupPlayer players1 pid).map Player.hasGuessedCorrectly = some true
      rw [hp1, lookupPlayer_updatePlayer, if_pos rfl, hlook]
      rfl
    · show ((initTurn { s.room with players := players1 } nid now).turnState).map
        TurnState.turnNumber = some (ts.turnNumber + 1)
      unfold initTurn
      dsimp only []
      rw [show ({ s.room with players := players1 } : GameState).turnState
          = s.room.turnState from rfl, hts]
      rfl

/-- Witness for C1 at `roomOne`: B guesses the display name exactly; the
guess is correct and (since C has not guessed) the room stays in PLAYING with
the turn advanced. -/
theorem c1_witness :
    (makeGuess { room := roomOne, timerArmed := true } "B" "The Rock" 1000).1.correct = true ∧
    (makeGuess { room := roomOne, timerArmed := true } "B" "The Rock" 1000).2.room.phase
      = GamePhase.PLAYING := by
  have h := c1_amended_makeGuess_correct { room := roomOne, timerArmed := true }
    "B" "The Rock" 1000
    { activeGuesserId := "B", turnNumber := 3, turnStartTime := 0, turnDuration := 45000 }
    { id := "B", name := "Bob",
      assignedIdentity := some { displayName := "The Rock",
                                 allowedAliases := ["Dwayne Johnson"] } }
    { displayName := "The Rock", allowedAliases := ["Dwayne Johnson"] }
    (by decide) (by decide) (by decide) (by decide) (by decide) (by decide) (by decide)
    (by decide) (by decide)
  exact ⟨h.2.1, (h.2.2.2.2.2 (by decide)).1⟩

-- ============================================================
-- C5 (confirmed): assignTargets builds a single Hamiltonian cycle
-- ============================================================

lemma cons_get_set_perm (xs : List String) :
    ∀ (j : Nat) (hj : j < xs.length) (x : String),
      (xs.get ⟨j, hj⟩ :: xs.set j x).Perm (x :: xs) := by
  induction xs with
  | nil => intro j hj; cases hj
  | cons y ys ih =>
    intro j hj x
    cases j with
    | zero => exact List.Perm.swap x y ys
    | succ j =>
      show (ys.get ⟨j, _⟩ :: y :: ys.set j x).Perm (x :: y :: ys)
      refine (List.Perm.swap y (ys.get ⟨j, _⟩) (ys.set j x)).trans ?_
      exact (((ih j (by simpa using hj) x).cons y).trans (List.Perm.swap x y ys))

lemma set_set_perm : ∀ (l : List String) (i j : Nat) (hi : i < l.length) (hj : j < l.length),
    ((l.set i (l.get ⟨j, hj⟩)).set j (l.get ⟨i, hi⟩)).Perm l
  | [], i, _, hi, _ => absurd hi (by simp)
  | x :: xs, 0, 0, _, _ => by
    show ((x :: xs).set 0 x).Perm (x :: xs)
    exact List.Perm.refl _
  | x :: xs, 0, j + 1, hi, hj => by
    show (xs.get ⟨j, _⟩ :: xs.set j x).Perm (x :: xs)
    exact cons_get_set_perm xs j (by simpa using hj) x
  | x :: xs, i + 1, 0, hi, hj => by
    show (xs.get ⟨i, _⟩ :: xs.set i x).Perm (x :: xs)
    exact cons_get_set_perm xs i (by simpa using hi) x
  | x :: xs, i + 1, j + 1, hi, hj => by
    show (x :: (xs.set i (xs.get ⟨j, _⟩)).set j (xs.get ⟨i, _⟩)).Perm (x :: xs)
    exact (set_set_perm xs i j (by simpa using hi) (by simpa using hj)).cons x

lemma swapList_perm (l : List String) (i j : Nat) : (swapList l i j).Perm l := by
  unfold swapList
  cases hi : l.get? i with
  | none => exact List.Perm.refl l
  | some a =>
    cases hj : l.get? j with
    | none => exact List.Perm.refl l
    | some b =>
      obtain ⟨hil, hia⟩ := List.get?_eq_some.mp hi
      obtain ⟨hjl, hjb⟩ := List.get?_eq_some.mp hj
      dsimp only []
      rw [← hia, ← hjb]
      exact set_set_perm l i j hil hjl

lemma shuffleAux_perm (rand : Nat → Nat) : ∀ (k : Nat) (l : List String),
    (shuffleAux rand l k).Perm l := by
  intro k
  induction k with
  | zero => intro l; exact List.Perm.refl l
  | succ k ih =>
    intro l
    unfold shuffleAux
    exact (ih _).trans (swapList_perm _ _ _)

lemma shuffleArray_perm (rand : Nat → Nat) (l : List String) :
    (shuffleArray rand l).Perm l := shuffleAux_perm rand _ l

lemma assignStep_eq (sh : List String) (n : Nat) (ps : List (String × Player)) (i : Nat) :
    assignStep sh n ps i =
      updatePlayer ps (sh.getD i "")
        (fun p => { p with targetPlayerId := sh.getD ((i + 1) % n) "" }) := rfl

lemma foldl_assignStep_keys (sh : List String) (n : Nat) :
    ∀ (l : List Nat) (ps : List (String × Player)),
      (l.foldl (assignStep sh n) ps).map Prod.fst = ps.map Prod.fst := by
  intro l
  induction l with
  | nil => intro ps; rfl
  | cons i t ih =>
    intro ps
    rw [List.foldl_cons, ih, assignStep_eq, updatePlayer_keys]

lemma foldl_assignStep_lookup_ne (sh : List String) (n : Nat) :
    ∀ (l : List Nat) (ps : List (String × Player)) (q : String),
      (∀ i ∈ l, sh.getD i "" ≠ q) →
      lookupPlayer (l.foldl (assignStep sh n) ps) q = lookupPlayer ps q := by
  intro l
  induction l with
  | nil => intro ps q _; rfl
  | cons i t ih =>
    intro ps q hq
    rw [List.foldl_cons, ih _ _ (fun m hm => hq m (List.mem_cons_of_mem _ hm)),
      assignStep_eq, lookupPlayer_updatePlayer]
    rw [if_neg]
    intro hc
    exact hq i (List.mem_cons_self i t) hc.symm

lemma getD_ne_of_nodup (sh : List String) (hnd : sh.Nodup) (i j : Nat)
    (hi : i < sh.length) (hj : j < sh.length) (hij : i ≠ j) :
    sh.getD i "" ≠ sh.getD j "" := by
  rw [List.getD_eq_getElem sh "" hi, List.getD_eq_getElem sh "" hj]
  intro hc
  exact hij (hnd.getElem_inj_iff.mp hc)

lemma foldl_assignStep_hit (sh : List String) (hnd : sh.Nodup) (j : Nat)
    (hj : j < sh.length) (ps : List (String × Player)) :
    lookupPlayer ((List.range sh.length).foldl (assignStep sh sh.length) ps) (sh.getD j "") =
      (lookupPlayer ps (sh.getD j "")).map
        (fun p => { p with targetPlayerId := sh.getD ((j + 1) % sh.length) "" }) := by
  have hsplit : List.range sh.length =
      List.range' 0 j ++ j :: List.range' (j + 1) (sh.length - j - 1) := by
    rw [List.range_eq_range']
    obtain ⟨m, hm⟩ : ∃ m, sh.length - j = m + 1 := ⟨sh.length - j - 1, by omega⟩
    have hm2 : sh.length - j - 1 = m := by omega
    have e1 : 0 + 1 * j = j := by omega
    have e2 : sh.length - j + j = sh.length := by omega
    have h1 := List.range'_append 0 j (sh.length - j) 1
    rw [e1, e2, hm] at h1
    rw [hm2, ← h1, List.range'_succ]
  have htail : ∀ i ∈ List.range' (j + 1) (sh.length - j - 1), sh.getD i "" ≠ sh.getD j "" := by
    intro i hi
    have hmem := List.mem_range'_1.mp hi
    exact getD_ne_of_nodup sh hnd i j (by omega) hj (by omega)
  have hfront : ∀ i ∈ List.range' 0 j, sh.getD i "" ≠ sh.getD j "" := by
    intro i hi
    have hmem := List.mem_range'_1.mp hi
    exact getD_ne_of_nodup sh hnd i j (by omega) hj (by omega)
  rw [hsplit, List.foldl_append, List.foldl_cons,
    foldl_assignStep_lookup_ne sh sh.length _ _ _ htail,
    assignStep_eq, lookupPlayer_updatePlayer, if_pos rfl,
    foldl_assignStep_lookup_ne sh sh.length _ _ _ hfront]

lemma iterTarget_of_targets (room' : GameState) (sh : List String)
    (htar : ∀ j, j < sh.length →
      targetOf room' (sh.getD j "") = some (sh.getD ((j + 1) % sh.length) "")) :
    ∀ (k j : Nat), j < sh.length →
      iterTarget room' k (sh.getD j "") = some (sh.getD ((j + k) % sh.length) "") := by
  intro k
  induction k with
  | zero =>
    intro j hj
    show some (sh.getD j "") = some (sh.getD ((j + 0) % sh.length) "")
    rw [Nat.add_zero, Nat.mod_eq_of_lt hj]
  | succ k ih =>
    intro j hj
    have hpos : 0 < sh.length := Nat.lt_of_le_of_lt (Nat.zero_le j) hj
    show (match targetOf room' (sh.getD j "") with
          | none => none
          | some t => iterTarget room' k t) = _
    rw [htar j hj]
    show iterTarget room' k (sh.getD ((j + 1) % sh.length) "") = _
    rw [ih ((j + 1) % sh.length) (Nat.mod_lt _ hpos), Nat.mod_add_mod]
    have e : j + 1 + k = j + (k + 1) := by omega
    rw [e]

lemma mod_shift_ne_self {L j k : Nat} (hj : j < L) (hk0 : 0 < k) (hkL : k < L)
    (he : (j + k) % L = j) : False := by
  have hmod : j % L = (j + k) % L := by rw [he, Nat.mod_eq_of_lt hj]
  have hdvd := (Nat.modEq_iff_dvd' (by omega : j ≤ j + k)).mp hmod
  have hsub : j + k - j = k := by omega
  rw [hsub] at hdvd
  have := Nat.le_of_dvd hk0 hdvd
  omega

/-- C5: for every room whose player count meets the configured minimum (with
distinct order entries matching the player-map keys, and a minimum of at least
two), `assignTargets` succeeds, replaces the order with a permutation of the
previous one, keeps the player-map keys, and wires each player's
`targetPlayerId` to the identifier immediately following it in the permuted
sequence (the last wrapping to the first) — so the target relation is a single
Hamiltonian cycle: no player is its own target, following targets returns to
the start after exactly the player count many steps and not before, and every
player is reachable from every player in fewer steps than the player count. -/
theorem c5_assignTargets_cycle (rand : Nat → Nat) (room : GameState)
    (hnd : room.playerOrder.Nodup)
    (hkeys : room.playerOrder.Perm (room.players.map Prod.fst))
    (hmin2 : 2 ≤ room.settings.minPlayers)
    (hcount : room.settings.minPlayers ≤ room.playerOrder.length) :
    (assignTargets rand room).1 = true ∧
    (assignTargets rand room).2.playerOrder.Perm room.playerOrder ∧
    (assignTargets rand room).2.players.map Prod.fst = room.players.map Prod.fst ∧
    (∀ j, j < room.playerOrder.length →
      targetOf (assignTargets rand room).2 ((assignTargets rand room).2.playerOrder.getD j "") =
        some ((assignTargets rand room).2.playerOrder.getD
          ((j + 1) % room.playerOrder.length) "")) ∧
    (∀ q ∈ (assignTargets rand room).2.playerOrder,
      targetOf (assignTargets rand room).2 q ≠ some q) ∧
    (∀ q ∈ (assignTargets rand room).2.playerOrder,
      iterTarget (assignTargets rand room).2 room.playerOrder.length q = some q) ∧
    (∀ q ∈ (assignTargets rand room).2.playerOrder,
      ∀ k, 0 < k → k < room.playerOrder.length →
        iterTarget (assignTargets rand room).2 k q ≠ some q) ∧
    (∀ q ∈ (assignTargets rand room).2.playerOrder,
      ∀ p ∈ (assignTargets rand room).2.playerOrder,
        ∃ k, k < room.playerOrder.length ∧ iterTarget (assignTargets rand room).2 k q = some p) := by
  have hguard : ¬ (room.playerOrder.length < room.settings.minPlayers) := not_lt.mpr hcount
  have hres : assignTargets rand room =
      (true,
        { room with
            playerOrder := shuffleArray rand room.playerOrder,
            players := (List.range (shuffleArray rand room.playerOrder).length).foldl
              (assignStep (shuffleArray rand room.playerOrder)
                (shuffleArray rand room.playerOrder).length) room.players }) := by
    unfold assignTargets
    rw [if_neg hguard]
  rw [hres]
  dsimp only []
  set sh := shuffleArray rand room.playerOrder with hshdef
  set players1 := (List.range sh.length).foldl (assignStep sh sh.length) room.players
    with hp1def
  have hperm : sh.Perm room.playerOrder := shuffleArray_perm rand room.playerOrder
  have hlen : sh.length = room.playerOrder.length := hperm.length_eq
  have hndsh : sh.Nodup := hperm.nodup_iff.mpr hnd
  have hpos : 0 < sh.length := by omega
  have hn2 : 2 ≤ sh.length := by omega
  have hmem_keys : ∀ q ∈ sh, (lookupPlayer room.players q).isSome := fun q hq =>
    lookupPlayer_isSome_of_mem_keys _ _ (hkeys.mem_iff.mp (hperm.mem_iff.mp hq))
  have hidx : ∀ q ∈ sh, ∃ j, ∃ hj : j < sh.length, sh.getD j "" = q := by
    intro q hq
    obtain ⟨j, hj, he⟩ := List.getElem_of_mem hq
    exact ⟨j, hj, by rw [List.getD_eq_getElem sh "" hj]; exact he⟩
  have hinj : ∀ i j, i < sh.length → j < sh.length → sh.getD i "" = sh.getD j "" → i = j := by
    intro i j hi hj he
    by_contra hne
    exact getD_ne_of_nodup sh hndsh i j hi hj hne he
  have htar : ∀ j, j < sh.length →
      targetOf { room with playerOrder := sh, players := players1 } (sh.getD j "") =
        some (sh.getD ((j + 1) % sh.length) "") := by
    intro j hj
    have hkey_mem : sh.getD j "" ∈ sh := by
      rw [List.getD_eq_getElem sh "" hj]
      exact List.getElem_mem hj
    obtain ⟨p0, hp0⟩ := Option.isSome_iff_exists.mp (hmem_keys _ hkey_mem)
    show (lookupPlayer players1 (sh.getD j "")).map Player.targetPlayerId = _
    rw [hp1def, foldl_assignStep_hit sh hndsh j hj room.players, hp0]
    rfl
  have hiter := iterTarget_of_targets { room with playerOrder := sh, players := players1 } sh htar
  rw [← hlen]
  refine ⟨rfl, hperm, ?_, htar, ?_, ?_, ?_, ?_⟩
  · rw [hp1def]
    exact foldl_assignStep_keys sh sh.length (List.range sh.length) room.players
  · intro q hq hc
    obtain ⟨j, hj, hje⟩ := hidx q hq
    rw [← hje] at hc
    rw [htar j hj] at hc
    injection hc with h2
    exact mod_shift_ne_self hj Nat.one_pos (by omega)
      (hinj _ _ (Nat.mod_lt _ hpos) hj h2)
  · intro q hq
    obtain ⟨j, hj, hje⟩ := hidx q hq
    rw [← hje, hiter sh.length j hj, Nat.add_mod_right, Nat.mod_eq_of_lt hj]
  · intro q hq k hk0 hkL hc
    obtain ⟨j, hj, hje⟩ := hidx q hq
    rw [← hje] at hc
    rw [hiter k j hj] at hc
    injection hc with h2
    exact mod_shift_ne_self hj hk0 hkL (hinj _ _ (Nat.mod_lt _ hpos) hj h2)
  · intro q hq p hp
    obtain ⟨j, hj, hje⟩ := hidx q hq
    obtain ⟨i, hi, hie⟩ := hidx p hp
    refine ⟨(i + sh.length - j) % sh.length, Nat.mod_lt _ hpos, ?_⟩
    rw [← hje, ← hie, hiter _ j hj]
    have e1 : (j + (i + sh.length - j) % sh.length) % sh.length = i := by
      rw [Nat.add_mod_mod]
      have e2 : j + (i + sh.length - j) = i + sh.length := by omega
      rw [e2, Nat.add_mod_right, Nat.mod_eq_of_lt hi]
    rw [e1]

/-- Witness for C5: `roomFive` (three players, default minimum of three) with
the constant-zero random oracle satisfies every hypothesis, and the cycle
conclusion holds for the concrete assignment. -/
theorem c5_witness :
    (assignTargets (fun _ => 0) roomFive).1 = true ∧
    (assignTargets (fun _ => 0) roomFive).2.playerOrder.Perm roomFive.playerOrder ∧
    (assignTargets (fun _ => 0) roomFive).2.players.map Prod.fst =
      roomFive.players.map Prod.fst ∧
    (∀ j, j < roomFive.playerOrder.length →
      targetOf (assignTargets (fun _ => 0) roomFive).2
          ((assignTargets (fun _ => 0) roomFive).2.playerOrder.getD j "") =
        some ((assignTargets (fun _ => 0) roomFive).2.playerOrder.getD
          ((j + 1) % roomFive.playerOrder.length) "")) ∧
    (∀ q ∈ (assignTargets (fun _ => 0) roomFive).2.playerOrder,
      targetOf (assignTargets (fun _ => 0) roomFive).2 q ≠ some q) ∧
    (∀ q ∈ (assignTargets (fun _ => 0) roomFive).2.playerOrder,
      iterTarget (assignTargets (fun _ => 0) roomFive).2 roomFive.playerOrder.length q =
        some q) ∧
    (∀ q ∈ (assignTargets (fun _ => 0) roomFive).2.playerOrder,
      ∀ k, 0 < k → k < roomFive.playerOrder.length →
        iterTarget (assignTargets (fun _ => 0) roomFive).2 k q ≠ some q) ∧
    (∀ q ∈ (assignTargets (fun _ => 0) roomFive).2.playerOrder,
      ∀ p ∈ (assignTargets (fun _ => 0) roomFive).2.playerOrder,
        ∃ k, k < roomFive.playerOrder.length ∧
          iterTarget (assignTargets (fun _ => 0) roomFive).2 k q = some p) :=
  c5_assignTargets_cycle (fun _ => 0) roomFive (by decide) (by decide) (by decide) (by decide)
